import Mathlib

/-!
Verification of the backupman sync/reconciliation engine.

This file gives a shallow embedding of the repository's core code:

* `backupman/utils/bulk_sync.py` — the generic `bulk_sync` set-reconciliation
  primitive (batch create / update / delete inside one transaction);
* `backupman/models.py` — the `Snapshot` and `SnapshotPath` entities and their
  operations (`Repository.sync_snapshots`, `Snapshot.sync`, `Snapshot.sync_stats`,
  `Snapshot.get_root`, `SnapshotPath.get_children`);
* `backupman/resticlib.py` — the `ResticWrapper` external-tool adapter.

The database is modelled as a list of (primary-key, record) pairs.  A Django
transaction that raises before commit is modelled by an `Option`/`Except`
result: `none`/`.error` means the exception propagated and the stored state is
the unchanged input.  Python dicts are modelled by association lists with
replace-on-insert and pop semantics, matching insertion order.
-/

namespace Backupman

/-- The statistics record returned by `bulk_sync`. -/
structure Stats where
  created : Nat
  updated : Nat
  deleted : Nat
deriving DecidableEq

section BulkSync

variable {P R K : Type} [DecidableEq P] [DecidableEq K]

/-- Python dict insertion: replace the value at an existing key in place,
otherwise append the binding at the end. -/
def dinsert (k : K) (v : P × R) : List (K × (P × R)) → List (K × (P × R))
  | [] => [(k, v)]
  | e :: rest => if e.1 = k then (k, v) :: rest else e :: dinsert k v rest

/-- The dict comprehension at bulk_sync.py line 52:
keyed by the key fields, later rows overwrite earlier ones. -/
def mkDict (keyOf : R → K) (subset : List (P × R)) : List (K × (P × R)) :=
  subset.foldl (fun m pr => dinsert (keyOf pr.2) pr m) []

/-- Python `dict.pop(k, None)`: return the binding at `k` (if any) and the
dict with that binding removed. -/
def dpop (k : K) : List (K × (P × R)) → Option (P × R) × List (K × (P × R))
  | [] => (none, [])
  | e :: rest =>
    if e.1 = k then (some e.2, rest)
    else
      let r := dpop k rest
      (r.1, e :: r.2)

/-- The loop at bulk_sync.py lines 56-64: split the desired records into
records to create (no existing row with their key) and records to update
(paired with the primary key of the matched existing row), returning also
the leftover existing rows (to be deleted). -/
def processObjs (keyOf : R → K) :
    List R → List (K × (P × R)) → List R × List (P × R) × List (K × (P × R))
  | [], ex => ([], [], ex)
  | o :: os, ex =>
    match dpop (keyOf o) ex with
    | (none, ex') =>
      let r := processObjs keyOf os ex'
      (o :: r.1, r.2.1, r.2.2)
    | (some e, ex') =>
      let r := processObjs keyOf os ex'
      (r.1, (e.1, o) :: r.2.1, r.2.2)

/-- `bulk_create`: assign storage identities to the created records.  For a
model whose primary key is a supplied field (Snapshot) `pkOf` ignores the
counter; for an auto primary key (SnapshotPath) `pkOf` returns the fresh
counter value. -/
def withPks (pkOf : R → Nat → P) (base : Nat) : List R → List (P × R)
  | [] => []
  | o :: os => (pkOf o base, o) :: withPks pkOf (base + 1) os

/-- Look up the update record assigned to primary key `p`
(`bulk_update` matches rows by primary key). -/
def findUpd (p : P) : List (P × R) → Option R
  | [] => none
  | e :: rest => if e.1 = p then some e.2 else findUpd p rest

/-- Shallow embedding of `bulk_sync(objs, key_fields, filters, fields, exclude)`
(bulk_sync.py lines 10-85).

* `keyOf` projects the `key_fields` tuple out of a record;
* `merge old new` is the effect of `bulk_update` on a stored row `old` from a
  desired record `new` restricted to the computed updatable-field list
  (every field that is not a primary key, not auto-created and editable,
  minus `exclude`);
* `pkOf` assigns the primary key of a created row;
* `scope` is the `filters` queryset predicate over (primary key, record);
* `base` is the first fresh auto primary key used by `bulk_create`.

`objs = []` raises `IndexError` at `objs[0]` before the transaction is even
opened; a primary-key collision in `bulk_create` raises `IntegrityError`
inside the transaction.  Both abort with the store unchanged: result `none`.
On success the new store contents and the stats dict are returned. -/
def bulk_sync (keyOf : R → K) (merge : R → R → R) (pkOf : R → Nat → P)
    (scope : P → R → Bool) (db : List (P × R)) (objs : List R) (base : Nat) :
    Option (List (P × R) × Stats) :=
  match objs with
  | [] => none
  | _ :: _ =>
    let subset := db.filter fun pr => scope pr.1 pr.2
    let existing := mkDict keyOf subset
    let res := processObjs keyOf objs existing
    let newObjs := res.1
    let updObjs := res.2.1
    let remaining := res.2.2
    let created := withPks pkOf base newObjs
    let db1 := db.map fun pr =>
      match findUpd pr.1 updObjs with
      | some o => (pr.1, merge pr.2 o)
      | none => pr
    if (db1.map Prod.fst ++ created.map Prod.fst).Nodup then
      let remPks := remaining.map fun kv => kv.2.1
      let db2 := (db1 ++ created).filter fun pr =>
        !(scope pr.1 pr.2 && decide (pr.1 ∈ remPks))
      some (db2, ⟨newObjs.length, objs.length - newObjs.length, remaining.length⟩)
    else none

/-- The first row of a stored list whose key is `k` (specification device for
reasoning about `mkDict`/`dpop` over a scoped subset). -/
def lookupS (keyOf : R → K) (k : K) : List (P × R) → Option (P × R)
  | [] => none
  | e :: rest => if keyOf e.2 = k then some e else lookupS keyOf k rest

/-- Remove the first row of a stored list whose key is `k` (specification
device matching `dict.pop`). -/
def removeS (keyOf : R → K) (k : K) : List (P × R) → List (P × R)
  | [] => []
  | e :: rest => if keyOf e.2 = k then rest else e :: removeS keyOf k rest

/-! Specification devices: names for the pieces of the normal form that
`bulk_sync` is proved to compute under the well-formedness hypotheses of its
call sites (`bulk_sync_eq` below). -/

/-- The scoped subset of the store (`subset_qs`). -/
def scopedRows (scope : P → R → Bool) (db : List (P × R)) : List (P × R) :=
  db.filter fun pr => scope pr.1 pr.2

/-- The desired records that match no scoped row (to be created). -/
def newRecords (keyOf : R → K) (scope : P → R → Bool) (db : List (P × R))
    (objs : List R) : List R :=
  objs.filter fun o => (lookupS keyOf (keyOf o) (scopedRows scope db)).isNone

/-- The update list: each desired record paired with the primary key of the
scoped row carrying its key. -/
def updPairs (keyOf : R → K) (scope : P → R → Bool) (db : List (P × R))
    (objs : List R) : List (P × R) :=
  objs.filterMap fun o =>
    (lookupS keyOf (keyOf o) (scopedRows scope db)).map fun e => (e.1, o)

/-- The scoped rows whose key no desired record carries (to be deleted). -/
def staleRows (keyOf : R → K) (scope : P → R → Bool) (db : List (P × R))
    (objs : List R) : List (P × R) :=
  (scopedRows scope db).filter fun e => decide (keyOf e.2 ∉ objs.map keyOf)

/-- The store after the `bulk_update` batch. -/
def updatedDb (keyOf : R → K) (merge : R → R → R) (scope : P → R → Bool)
    (db : List (P × R)) (objs : List R) : List (P × R) :=
  db.map fun pr =>
    match findUpd pr.1 (updPairs keyOf scope db objs) with
    | some o => (pr.1, merge pr.2 o)
    | none => pr

/-- The primary-key integrity condition checked by `bulk_create`. -/
def syncOk (keyOf : R → K) (merge : R → R → R) (pkOf : R → Nat → P)
    (scope : P → R → Bool) (db : List (P × R)) (objs : List R)
    (base : Nat) : Prop :=
  ((updatedDb keyOf merge scope db objs).map Prod.fst ++
    (withPks pkOf base (newRecords keyOf scope db objs)).map Prod.fst).Nodup

instance syncOkDecidable (keyOf : R → K) (merge : R → R → R)
    (pkOf : R → Nat → P) (scope : P → R → Bool) (db : List (P × R))
    (objs : List R) (base : Nat) :
    Decidable (syncOk keyOf merge pkOf scope db objs base) :=
  List.nodupDecidable _

/-- The store contents a successful `bulk_sync` commits. -/
def syncResultDb (keyOf : R → K) (merge : R → R → R) (pkOf : R → Nat → P)
    (scope : P → R → Bool) (db : List (P × R)) (objs : List R)
    (base : Nat) : List (P × R) :=
  (updatedDb keyOf merge scope db objs ++
    withPks pkOf base (newRecords keyOf scope db objs)).filter fun pr =>
      !(scope pr.1 pr.2 &&
        decide (pr.1 ∈ (staleRows keyOf scope db objs).map Prod.fst))

end BulkSync

/-! ## The Snapshot entity (models.py lines 124-174) -/

/-- A stored `Snapshot` row.  `id` is the primary key (a content-hash string,
`editable=False`); `repository` is the foreign-key id of the owning
`Repository`; `created_on` is `auto_now_add`; `total_size` and
`total_file_count` are nullable locally-cached aggregates.  Timestamps are
modelled as naturals. -/
structure SnapRec where
  id : String
  repository : Nat
  hostname : String
  username : String
  paths : List String
  tags : List String
  time : Nat
  short_id : String
  parent : String
  tree : String
  created_on : Nat
  fetched_on : Nat
  total_size : Option Int
  total_file_count : Option Int
deriving DecidableEq

/-- The key of a Snapshot in `sync_snapshots`: the field list `["id"]`. -/
def snapKeyOf (r : SnapRec) : String := r.id

/-- Primary key of a created Snapshot row: `id` is the primary key column,
so `bulk_create` stores the row under the supplied id (the fresh-pk counter
is unused). -/
def snapPkOf (r : SnapRec) (_ : Nat) : String := r.id

/-- Effect of `bulk_update` on a stored Snapshot row.  The default updatable
field list is every field that is not the primary key (`id`), not
auto-created (`created_on` has `auto_now_add`) and editable (`short_id` has
`editable=False`); `sync_snapshots` further excludes `total_size` and
`total_file_count`.  All remaining fields take the desired record's value,
the rest keep the stored value. -/
def mergeSnap (stored d : SnapRec) : SnapRec :=
  { stored with
    repository := d.repository, hostname := d.hostname, username := d.username,
    paths := d.paths, tags := d.tags, time := d.time,
    parent := d.parent, tree := d.tree, fetched_on := d.fetched_on }

/-- The `filters=Q(repository=self)` scope of `sync_snapshots`. -/
def snapScope (repo : Nat) (_ : String) (r : SnapRec) : Bool :=
  r.repository == repo

/-- Agreement of a stored Snapshot row with a desired record on every
updatable field of the `sync_snapshots` reconcile: the default updatable
list (non-primary-key, non-auto-created, editable) minus the excluded
`total_size` and `total_file_count`. -/
def agreesOnUpdatable (r o : SnapRec) : Prop :=
  r.repository = o.repository ∧ r.hostname = o.hostname ∧
  r.username = o.username ∧ r.paths = o.paths ∧ r.tags = o.tags ∧
  r.time = o.time ∧ r.parent = o.parent ∧ r.tree = o.tree ∧
  r.fetched_on = o.fetched_on

/-- One entry of the JSON array printed by the external tool's
snapshot-listing command. -/
structure ResticSnap where
  id : String
  short_id : String
  parent : String
  tree : String
  hostname : String
  username : String
  paths : List String
  tags : List String
  time : Nat
deriving DecidableEq

/-- `Snapshot.from_restic` (models.py lines 154-156): build a Snapshot record
from a tool entry, stamping `fetched_on = now` and the owning repository.
`total_size`/`total_file_count` are not in the tool output and default to
null; `created_on` is set by the database at insert time. -/
def Snapshot.from_restic (s : ResticSnap) (repo : Nat) (now : Nat) : SnapRec :=
  { id := s.id, repository := repo, hostname := s.hostname,
    username := s.username, paths := s.paths, tags := s.tags, time := s.time,
    short_id := s.short_id, parent := s.parent, tree := s.tree,
    created_on := now, fetched_on := now,
    total_size := none, total_file_count := none }

/-- The reconcile call issued by `Repository.sync_snapshots`
(models.py lines 63-65): key `["id"]`, scope `Q(repository=self)`,
`exclude=("total_size", "total_file_count")`. -/
def snapshot_bulk_sync (repo : Nat) (db : List (String × SnapRec))
    (objs : List SnapRec) : Option (List (String × SnapRec) × Stats) :=
  bulk_sync snapKeyOf mergeSnap snapPkOf (snapScope repo) db objs 0

/-! ## The SnapshotPath entity (models.py lines 177-218) -/

/-- A stored `SnapshotPath` row (without its auto primary key).  `snapshot` is
the foreign-key id of the owning Snapshot; `fetched_on` is null until the
node's children are first fetched. -/
structure PathRec where
  snapshot : String
  name : String
  type : String
  path : String
  uid : Option Int
  gid : Option Int
  size : Option Int
  mode : Option Int
  mtime : Option Nat
  atime : Option Nat
  ctime : Option Nat
  fetched_on : Option Nat
deriving DecidableEq

/-- The `path__startswith` lookup: string-prefix test, over character lists. -/
def startswith (pre s : String) : Bool :=
  List.isPrefixOf pre.data s.data

/-- The key of a SnapshotPath in `get_children`:
the field tuple `("snapshot_id", "path")`. -/
def pathKeyOf (r : PathRec) : String × String := (r.snapshot, r.path)

/-- Primary key of a created SnapshotPath row: the implicit `id` column is
auto-generated, so `bulk_create` assigns the next fresh value. -/
def pathPkOf (_ : PathRec) (n : Nat) : Nat := n

/-- Effect of `bulk_update` on a stored SnapshotPath row: with no explicit
`fields` and no `exclude`, every field except the auto primary key is
updatable, so the row becomes the desired record. -/
def mergePath (_ d : PathRec) : PathRec := d

/-- `SnapshotPath.children_q` (models.py lines 202-204): rows of the same
snapshot whose path is prefixed by this node's path, excluding the node
itself (by primary key). -/
def children_q (selfPk : Nat) (snapId selfPath : String) (p : Nat)
    (r : PathRec) : Bool :=
  r.snapshot == snapId && startswith selfPath r.path && !(p == selfPk)

/-- The next auto primary key the database would assign. -/
def freshPk (db : List (Nat × PathRec)) : Nat :=
  (db.map Prod.fst).foldr max 0 + 1

/-- The reconcile call issued by `SnapshotPath.get_children`
(models.py lines 213-215): key `("snapshot_id", "path")`, scope
`children_q()`, no field exclusions. -/
def path_bulk_sync (selfPk : Nat) (snapId selfPath : String)
    (db : List (Nat × PathRec)) (files : List PathRec) :
    Option (List (Nat × PathRec) × Stats) :=
  bulk_sync pathKeyOf mergePath pathPkOf (children_q selfPk snapId selfPath)
    db files (freshPk db)

/-- One `struct_type == "node"` line of the external tool's directory-listing
output. -/
structure ResticNode where
  name : String
  type : String
  path : String
  uid : Option Int
  gid : Option Int
  size : Option Int
  mode : Option Int
  mtime : Option Nat
  atime : Option Nat
  ctime : Option Nat
deriving DecidableEq

/-- `SnapshotPath.from_restic` (models.py lines 198-200): build a path record
from a tool entry for the given snapshot; `fetched_on` defaults to null. -/
def SnapshotPath.from_restic (e : ResticNode) (snapId : String) : PathRec :=
  { snapshot := snapId, name := e.name, type := e.type, path := e.path,
    uid := e.uid, gid := e.gid, size := e.size, mode := e.mode,
    mtime := e.mtime, atime := e.atime, ctime := e.ctime, fetched_on := none }

deriving instance DecidableEq for Except

/-! ## The external tool adapter (resticlib.py) -/

/-- Outcome of one external-tool process invocation
(`subprocess.run` in `ResticWrapper.call`). -/
structure ProcResult where
  returncode : Int
  stdout : String
deriving DecidableEq

/-- The distinct error kinds an adapter call can raise:
`CalledProcessError` from `check_returncode()` on a non-zero exit status,
or a parse error (`json.loads`) on malformed output. -/
inductive ToolError where
  | nonZeroExit (code : Int)
  | malformed
deriving DecidableEq

/-- `ResticWrapper.call` (resticlib.py lines 18-27): run the tool and raise on
a non-zero exit status, otherwise return stdout. -/
def ResticWrapper.call (proc : ProcResult) : Except ToolError String :=
  if proc.returncode = 0 then .ok proc.stdout
  else .error (.nonZeroExit proc.returncode)

/-- `ResticWrapper.snapshots` (resticlib.py lines 29-31): call, then parse the
JSON array; a parse failure raises.  `parse` models `json.loads` on the
snapshot listing. -/
def ResticWrapper.snapshots (proc : ProcResult)
    (parse : String → Option (List ResticSnap)) :
    Except ToolError (List ResticSnap) :=
  match ResticWrapper.call proc with
  | .error e => .error e
  | .ok out =>
    match parse out with
    | none => .error .malformed
    | some l => .ok l

/-- `ResticWrapper.ls` (resticlib.py lines 33-39): call, then parse the
line-delimited JSON, keeping the `struct_type == "node"` entries.  `parse`
models that parsing; a parse failure raises. -/
def ResticWrapper.ls (proc : ProcResult)
    (parse : String → Option (List ResticNode)) :
    Except ToolError (List ResticNode) :=
  match ResticWrapper.call proc with
  | .error e => .error e
  | .ok out =>
    match parse out with
    | none => .error .malformed
    | some l => .ok l

/-- The stats record parsed from the tool's stats command. -/
structure StatsRec where
  total_size : Int
  total_file_count : Int
deriving DecidableEq

/-- `ResticWrapper.stats` (resticlib.py lines 41-43): call, then parse the
JSON object; a parse failure raises. -/
def ResticWrapper.stats (proc : ProcResult)
    (parse : String → Option StatsRec) : Except ToolError StatsRec :=
  match ResticWrapper.call proc with
  | .error e => .error e
  | .ok out =>
    match parse out with
    | none => .error .malformed
    | some s => .ok s

/-- Errors that can propagate out of a sync operation: an adapter failure, or
an aborted reconcile transaction (`IndexError` on an empty desired list, or
`IntegrityError` inside the batch). -/
inductive SyncError where
  | tool (e : ToolError)
  | reconcileAborted
deriving DecidableEq

/-! ## Repository.sync_snapshots (models.py lines 58-68) -/

/-- Result of `Repository.sync_snapshots`: the Snapshot table contents
(always reported, unchanged when `res` is an error) and, on success, the
desired records that were reconciled. -/
structure SyncSnapshotsResult where
  db : List (String × SnapRec)
  res : Except SyncError (List SnapRec × Stats)
deriving DecidableEq

/-- `Repository.sync_snapshots`: fetch the snapshot listing from the adapter,
convert each entry with `Snapshot.from_restic`, and reconcile against the
rows scoped to this repository.  An adapter error propagates before
`bulk_sync` runs; a reconcile abort rolls the transaction back.  In both
error cases the stored rows are unchanged. -/
def Repository.sync_snapshots (repo : Nat) (db : List (String × SnapRec))
    (proc : ProcResult) (parse : String → Option (List ResticSnap))
    (now : Nat) : SyncSnapshotsResult :=
  match ResticWrapper.snapshots proc parse with
  | .error e => ⟨db, .error (.tool e)⟩
  | .ok raws =>
    let snaps := raws.map fun s => Snapshot.from_restic s repo now
    match snapshot_bulk_sync repo db snaps with
    | none => ⟨db, .error .reconcileAborted⟩
    | some (db', st) => ⟨db', .ok (snaps, st)⟩

/-! ## SnapshotPath.get_children (models.py lines 206-218) -/

/-- Result of `SnapshotPath.get_children`: the SnapshotPath table contents,
the node's own record (with `fetched_on` stamped on a successful fetch), the
returned children (or the propagated error), and how many external-tool
invocations the call issued. -/
structure GetChildrenResult where
  db : List (Nat × PathRec)
  self : PathRec
  res : Except SyncError (List PathRec)
  calls : Nat
deriving DecidableEq

/-- `SnapshotPath.get_children(force_sync)`: if this node was already fetched
and the refresh is not forced, return the stored children (rows matching
`children_q`) without touching the external source.  Otherwise invoke the
adapter's `ls`, convert the entries with `from_restic`, reconcile them
against the `children_q` scope, stamp `fetched_on = now` on this node
(`self.save()`), and return the converted entries.  Adapter errors and
reconcile aborts propagate with the stored rows unchanged. -/
def SnapshotPath.get_children (selfPk : Nat) (selfRec : PathRec)
    (db : List (Nat × PathRec)) (proc : ProcResult)
    (parse : String → Option (List ResticNode)) (now : Nat)
    (force_sync : Bool) : GetChildrenResult :=
  if selfRec.fetched_on.isSome && !force_sync then
    ⟨db, selfRec,
      .ok ((db.filter fun pr =>
        children_q selfPk selfRec.snapshot selfRec.path pr.1 pr.2).map
        Prod.snd), 0⟩
  else
    match ResticWrapper.ls proc parse with
    | .error e => ⟨db, selfRec, .error (.tool e), 1⟩
    | .ok raw =>
      let files := raw.map fun e => SnapshotPath.from_restic e selfRec.snapshot
      match path_bulk_sync selfPk selfRec.snapshot selfRec.path db files with
      | none => ⟨db, selfRec, .error .reconcileAborted, 1⟩
      | some (db', _) =>
        let self' := { selfRec with fetched_on := some now }
        ⟨db'.map fun pr => if pr.1 = selfPk then (pr.1, self') else pr,
          self', .ok files, 1⟩

/-! ## Snapshot.get_root (models.py lines 170-174) -/

/-- The `defaults={"name": "root", "type": "dir"}` record created for the
root path of a snapshot. -/
def rootDefaults (snapId : String) : PathRec :=
  { snapshot := snapId, name := "root", type := "dir", path := "/",
    uid := none, gid := none, size := none, mode := none,
    mtime := none, atime := none, ctime := none, fetched_on := none }

/-- The read half of Django's `get_or_create`: the first stored row with this
snapshot and path `"/"` (the lookup kwargs of `get_root`). -/
def get_or_create_read (db : List (Nat × PathRec)) (snapId : String) :
    Option (Nat × PathRec) :=
  db.find? fun pr => pr.2.snapshot == snapId && pr.2.path == "/"

/-- The write half of Django's `get_or_create`: insert a fresh root row.
`SnapshotPath` declares no uniqueness constraint on (snapshot, path), so the
insert always succeeds. -/
def get_or_create_write (db : List (Nat × PathRec)) (snapId : String) :
    (Nat × PathRec) × List (Nat × PathRec) :=
  let row := (freshPk db, rootDefaults snapId)
  (row, db ++ [row])

/-- One step of `get_or_create` given the result of an earlier read: return
the row that was read, or create the default row if the read found none. -/
def get_or_create_step (readResult : Option (Nat × PathRec))
    (db : List (Nat × PathRec)) (snapId : String) :
    (Nat × PathRec) × List (Nat × PathRec) :=
  match readResult with
  | some pr => (pr, db)
  | none => get_or_create_write db snapId

/-- `Snapshot.get_root`: `SnapshotPath.objects.get_or_create(snapshot=self,
path="/", defaults={"name": "root", "type": "dir"})` — a read immediately
followed by a conditional write. -/
def Snapshot.get_root (db : List (Nat × PathRec)) (snapId : String) :
    (Nat × PathRec) × List (Nat × PathRec) :=
  get_or_create_step (get_or_create_read db snapId) db snapId

/-- The number of root rows (path `"/"`) stored for a snapshot. -/
def rootRowCount (db : List (Nat × PathRec)) (snapId : String) : Nat :=
  (db.filter fun pr => pr.2.snapshot == snapId && pr.2.path == "/").length

/-! ## Snapshot.sync and Snapshot.sync_stats (models.py lines 158-168) -/

/-- `Snapshot.sync_stats`: call the adapter's stats for this snapshot and
persist `total_size`/`total_file_count`; an adapter error propagates with
the record unchanged. -/
def Snapshot.sync_stats (snap : SnapRec) (proc : ProcResult)
    (parse : String → Option StatsRec) :
    SnapRec × Except ToolError StatsRec :=
  match ResticWrapper.stats proc parse with
  | .error e => (snap, .error e)
  | .ok st =>
    ({ snap with total_size := some st.total_size,
                 total_file_count := some st.total_file_count }, .ok st)

/-- Result of `Snapshot.sync`: the snapshot record, the SnapshotPath table,
how many stats calls were issued, the `force_sync` flag passed to
`get_children` (none when the stats call raised first and `get_children`
was never reached), and the propagated result. -/
structure SnapSyncResult where
  snap : SnapRec
  pathDb : List (Nat × PathRec)
  statsCalls : Nat
  childForce : Option Bool
  res : Except SyncError (List PathRec)
deriving DecidableEq

/-- `Snapshot.sync(full)` (models.py lines 158-161): if `full` or the stats
were never fetched (`total_size is None`), run `sync_stats` first — an error
there propagates before the path tree is touched.  Then
`self.get_root().get_children(force_sync=full)`. -/
def Snapshot.sync (snap : SnapRec) (pathDb : List (Nat × PathRec))
    (full : Bool) (statsProc : ProcResult)
    (statsParse : String → Option StatsRec) (lsProc : ProcResult)
    (lsParse : String → Option (List ResticNode)) (now : Nat) :
    SnapSyncResult :=
  let statsStep :=
    if full || snap.total_size.isNone then
      some (Snapshot.sync_stats snap statsProc statsParse)
    else none
  match statsStep with
  | some (_, .error e) => ⟨snap, pathDb, 1, none, .error (.tool e)⟩
  | other =>
    let snap1 := match other with
      | some (s, _) => s
      | none => snap
    let calls : Nat := match other with
      | some _ => 1
      | none => 0
    let rootAndDb := Snapshot.get_root pathDb snap.id
    let g := SnapshotPath.get_children rootAndDb.1.1 rootAndDb.1.2
      rootAndDb.2 lsProc lsParse now full
    ⟨snap1, g.db, calls, some full, g.res⟩

/-! ## Concrete fixtures for witnesses and counterexamples -/

/-- A concrete Snapshot row/record. -/
def mkSnap (i : String) (repo : Nat) (host : String) (tags : List String)
    (ts tfc : Option Int) : SnapRec :=
  { id := i, repository := repo, hostname := host, username := "u",
    paths := ["/data"], tags := tags, time := 1, short_id := i, parent := "",
    tree := "t", created_on := 0, fetched_on := 2, total_size := ts,
    total_file_count := tfc }

/-- A concrete external-tool snapshot entry. -/
def rsnap (i host : String) : ResticSnap :=
  { id := i, short_id := i, parent := "", tree := "t", hostname := host,
    username := "u", paths := ["/data"], tags := [], time := 1 }

/-- A concrete external-tool directory entry. -/
def rnode (name path : String) : ResticNode :=
  { name := name, type := "file", path := path, uid := some 0, gid := some 0,
    size := some 10, mode := some 420, mtime := some 3, atime := some 3,
    ctime := some 3 }

/-!
# Theorems

First a layer of lemmas about the dictionary operations used by `bulk_sync`,
then a normal form for `bulk_sync` under the well-formedness hypotheses that
hold at both call sites (distinct stored primary keys, distinct keys among
the scoped rows, distinct keys among the desired records), then the claims.
-/

set_option linter.unusedSectionVars false

section DictLemmas

variable {P R K : Type} [DecidableEq P] [DecidableEq K]
variable {keyOf : R → K}

theorem dinsert_not_mem (k : K) (v : P × R) (m : List (K × (P × R)))
    (h : k ∉ m.map Prod.fst) : dinsert k v m = m ++ [(k, v)] := by
  induction m with
  | nil => rfl
  | cons e rest ih =>
    simp only [List.map_cons, List.mem_cons, not_or] at h
    simp only [dinsert, if_neg (fun he : e.1 = k => h.1 he.symm), List.cons_append,
      List.cons.injEq, true_and]
    exact ih h.2

theorem mkDict_go (subset : List (P × R)) (acc : List (K × (P × R)))
    (hdisj : ∀ e ∈ subset, keyOf e.2 ∉ acc.map Prod.fst)
    (hsub : (subset.map fun e => keyOf e.2).Nodup) :
    subset.foldl (fun m pr => dinsert (keyOf pr.2) pr m) acc =
      acc ++ subset.map fun e => (keyOf e.2, e) := by
  induction subset generalizing acc with
  | nil => simp
  | cons x xs ih =>
    simp only [List.map_cons, List.nodup_cons] at hsub
    simp only [List.foldl_cons]
    rw [dinsert_not_mem _ _ _ (hdisj x (by simp))]
    rw [ih (acc ++ [(keyOf x.2, x)])]
    · simp
    · intro e he
      simp only [List.map_append, List.mem_append, List.map_cons, List.map_nil,
        List.mem_singleton, not_or]
      refine ⟨hdisj e (List.mem_cons_of_mem _ he), fun hk => ?_⟩
      exact hsub.1 (hk ▸ List.mem_map_of_mem (fun e => keyOf e.2) he)
    · exact hsub.2

/-- Under distinct scoped keys, the Python dict built at bulk_sync.py line 52
is just the scoped rows keyed in order. -/
theorem mkDict_eq (subset : List (P × R))
    (hsub : (subset.map fun e => keyOf e.2).Nodup) :
    mkDict keyOf subset = subset.map fun e => (keyOf e.2, e) := by
  simpa using mkDict_go subset [] (by simp) hsub

theorem dpop_map (k : K) (subset : List (P × R)) :
    dpop k (subset.map fun e => (keyOf e.2, e)) =
      (lookupS keyOf k subset,
       (removeS keyOf k subset).map fun e => (keyOf e.2, e)) := by
  induction subset with
  | nil => rfl
  | cons x xs ih =>
    simp only [List.map_cons, dpop, lookupS, removeS]
    by_cases h : keyOf x.2 = k
    · simp [h]
    · simp [h, ih]

theorem lookupS_eq_some {k : K} {subset : List (P × R)} {e : P × R}
    (h : lookupS keyOf k subset = some e) : e ∈ subset ∧ keyOf e.2 = k := by
  induction subset with
  | nil => cases h
  | cons x xs ih =>
    by_cases hx : keyOf x.2 = k
    · rw [lookupS, if_pos hx] at h
      cases h
      exact ⟨List.mem_cons_self _ _, hx⟩
    · rw [lookupS, if_neg hx] at h
      exact ⟨List.mem_cons_of_mem _ (ih h).1, (ih h).2⟩

theorem lookupS_eq_none {k : K} {subset : List (P × R)} :
    lookupS keyOf k subset = none ↔ ∀ e ∈ subset, keyOf e.2 ≠ k := by
  induction subset with
  | nil => simp [lookupS]
  | cons x xs ih =>
    by_cases hx : keyOf x.2 = k
    · simp [lookupS, if_pos hx, hx]
    · simp [lookupS, if_neg hx, ih, hx]

/-- Under distinct scoped keys, looking up the key of a scoped row finds that
row. -/
theorem lookupS_self {subset : List (P × R)} {e : P × R}
    (hsub : (subset.map fun x => keyOf x.2).Nodup) (hm : e ∈ subset) :
    lookupS keyOf (keyOf e.2) subset = some e := by
  induction subset with
  | nil => cases hm
  | cons x xs ih =>
    simp only [List.map_cons, List.nodup_cons] at hsub
    rcases List.mem_cons.mp hm with he | he
    · subst he
      rw [lookupS, if_pos rfl]
    · have hne : keyOf x.2 ≠ keyOf e.2 := fun hk =>
        hsub.1 (hk ▸ List.mem_map_of_mem (fun x => keyOf x.2) he)
      rw [lookupS, if_neg hne]
      exact ih hsub.2 he

theorem removeS_of_lookup_none {k : K} {subset : List (P × R)}
    (h : lookupS keyOf k subset = none) : removeS keyOf k subset = subset := by
  induction subset with
  | nil => rfl
  | cons x xs ih =>
    have hx : keyOf x.2 ≠ k := (lookupS_eq_none.mp h) x (List.mem_cons_self _ _)
    rw [removeS, if_neg hx, ih]
    rw [lookupS, if_neg hx] at h
    exact h

theorem removeS_sublist (k : K) (subset : List (P × R)) :
    List.Sublist (removeS keyOf k subset) subset := by
  induction subset with
  | nil => simp [removeS]
  | cons x xs ih =>
    rw [removeS]
    by_cases hx : keyOf x.2 = k
    · rw [if_pos hx]
      exact List.sublist_cons_self x xs
    · rw [if_neg hx]
      exact ih.cons₂ x

theorem lookupS_removeS_ne {k k' : K} (h : k' ≠ k) (subset : List (P × R)) :
    lookupS keyOf k' (removeS keyOf k subset) = lookupS keyOf k' subset := by
  induction subset with
  | nil => rfl
  | cons x xs ih =>
    by_cases hx : keyOf x.2 = k
    · rw [removeS, if_pos hx, lookupS, if_neg (fun hk' => h (by rw [← hk', hx]))]
    · by_cases hx' : keyOf x.2 = k'
      · rw [removeS, if_neg hx, lookupS, if_pos hx', lookupS, if_pos hx']
      · rw [removeS, if_neg hx, lookupS, if_neg hx', lookupS, if_neg hx', ih]

theorem filter_removeS {k : K} {e : P × R} (ks : List K)
    {subset : List (P × R)}
    (hsub : (subset.map fun x => keyOf x.2).Nodup)
    (h : lookupS keyOf k subset = some e) :
    subset.filter (fun x => decide (keyOf x.2 ∉ k :: ks)) =
      (removeS keyOf k subset).filter (fun x => decide (keyOf x.2 ∉ ks)) := by
  induction subset with
  | nil => cases h
  | cons x xs ih =>
    simp only [List.map_cons, List.nodup_cons] at hsub
    by_cases hx : keyOf x.2 = k
    · rw [removeS, if_pos hx]
      rw [List.filter_cons_of_neg (by simp [hx])]
      refine List.filter_congr fun y hy => ?_
      have hne : keyOf y.2 ≠ k := fun hk =>
        hsub.1 (by
          rw [hx]
          exact hk ▸ List.mem_map_of_mem (fun x => keyOf x.2) hy)
      simp [hne]
    · rw [lookupS, if_neg hx] at h
      rw [removeS, if_neg hx]
      by_cases hk : keyOf x.2 ∈ ks
      · rw [List.filter_cons_of_neg (by simp [hk]),
          List.filter_cons_of_neg (by simp [hk])]
        exact ih hsub.2 h
      · rw [List.filter_cons_of_pos (by simp [hx, hk]),
          List.filter_cons_of_pos (by simp [hk])]
        rw [ih hsub.2 h]

theorem findUpd_mem {p : P} {o : R} {us : List (P × R)}
    (h : findUpd p us = some o) : (p, o) ∈ us := by
  induction us with
  | nil => cases h
  | cons e rest ih =>
    by_cases he : e.1 = p
    · rw [findUpd, if_pos he] at h
      cases h
      have hpe : (p, e.2) = e := by rw [← he]
      rw [hpe]
      exact List.mem_cons_self _ _
    · rw [findUpd, if_neg he] at h
      exact List.mem_cons_of_mem _ (ih h)

theorem findUpd_eq_some_of_mem {p : P} {o : R} {us : List (P × R)}
    (hinj : ∀ a ∈ us, ∀ b ∈ us, a.1 = b.1 → a = b)
    (h : (p, o) ∈ us) : findUpd p us = some o := by
  induction us with
  | nil => cases h
  | cons e rest ih =>
    by_cases he : e.1 = p
    · rw [findUpd, if_pos he]
      have : e = (p, o) :=
        hinj e (List.mem_cons_self _ _) (p, o) h he
      rw [this]
    · rcases List.mem_cons.mp h with h1 | h1
      · cases h1
        exact absurd rfl he
      · rw [findUpd, if_neg he]
        exact ih (fun a ha b hb => hinj a (List.mem_cons_of_mem _ ha)
          b (List.mem_cons_of_mem _ hb)) h1

theorem findUpd_eq_none {p : P} {us : List (P × R)} :
    findUpd p us = none ↔ ∀ o, (p, o) ∉ us := by
  induction us with
  | nil => simp [findUpd]
  | cons e rest ih =>
    by_cases he : e.1 = p
    · rw [findUpd, if_pos he]
      refine iff_of_false (by simp) ?_
      intro hall
      refine hall e.2 ?_
      have hpe : (p, e.2) = e := by rw [← he]
      rw [hpe]
      exact List.mem_cons_self _ _
    · rw [findUpd, if_neg he]
      rw [ih]
      constructor
      · intro hall o ho
        rcases List.mem_cons.mp ho with h1 | h1
        · exact he (by rw [← h1])
        · exact hall o h1
      · intro hall o ho
        exact hall o (List.mem_cons_of_mem _ ho)

theorem pk_inj {db : List (P × R)} (h : (db.map Prod.fst).Nodup)
    {a b : P × R} (ha : a ∈ db) (hb : b ∈ db) (hpk : a.1 = b.1) : a = b :=
  List.inj_on_of_nodup_map h ha hb hpk

theorem le_foldr_max (l : List Nat) (x : Nat) (h : x ∈ l) :
    x ≤ l.foldr max 0 := by
  induction l with
  | nil => cases h
  | cons y ys ih =>
    rcases List.mem_cons.mp h with h1 | h1
    · rw [h1, List.foldr_cons]
      exact le_max_left _ _
    · rw [List.foldr_cons]
      exact le_trans (ih h1) (le_max_right _ _)

theorem map_self {α : Type} {l : List α} {f : α → α}
    (h : ∀ a ∈ l, f a = a) : l.map f = l := by
  induction l with
  | nil => rfl
  | cons x xs ih =>
    rw [List.map_cons, h x (List.mem_cons_self _ _),
      ih fun a ha => h a (List.mem_cons_of_mem _ ha)]

/-- Normal form for the matching loop: with distinct scoped keys and distinct
desired keys, the created records are the desired records whose key matches
no scoped row, the update list pairs each desired record with the primary
key of the scoped row carrying its key, and the remainder is the scoped rows
whose key no desired record carries. -/
theorem processObjs_eq (objs : List R) (subset : List (P × R))
    (hsub : (subset.map fun e => keyOf e.2).Nodup)
    (hobjs : (objs.map keyOf).Nodup) :
    processObjs keyOf objs (subset.map fun e => (keyOf e.2, e)) =
      (objs.filter fun o => (lookupS keyOf (keyOf o) subset).isNone,
       objs.filterMap fun o =>
         (lookupS keyOf (keyOf o) subset).map fun e => (e.1, o),
       (subset.filter fun e => decide (keyOf e.2 ∉ objs.map keyOf)).map
         fun e => (keyOf e.2, e)) := by
  induction objs generalizing subset with
  | nil =>
    simp [processObjs]
  | cons o os ih =>
    simp only [List.map_cons, List.nodup_cons] at hobjs
    have hne : ∀ o' ∈ os, keyOf o' ≠ keyOf o := fun o' ho' hk =>
      hobjs.1 (hk ▸ List.mem_map_of_mem keyOf ho')
    rw [processObjs, dpop_map]
    cases hl : lookupS keyOf (keyOf o) subset with
    | none =>
      rw [removeS_of_lookup_none hl]
      dsimp only
      rw [ih subset hsub hobjs.2]
      have hrem : (subset.filter fun e =>
          decide (keyOf e.2 ∉ List.map keyOf (o :: os))) =
          subset.filter fun e => decide (keyOf e.2 ∉ List.map keyOf os) :=
        List.filter_congr fun e he => by
          have hne2 : keyOf e.2 ≠ keyOf o := (lookupS_eq_none.mp hl) e he
          simp [hne2]
      rw [List.filter_cons_of_pos (by simp [hl]),
        List.filterMap_cons_none (by simp [hl]), hrem]
    | some e =>
      have hsub' : ((removeS keyOf (keyOf o) subset).map
          fun x => keyOf x.2).Nodup :=
        hsub.sublist ((removeS_sublist _ _).map _)
      dsimp only
      rw [ih (removeS keyOf (keyOf o) subset) hsub' hobjs.2]
      rw [List.filter_cons_of_neg (by simp [hl])]
      rw [List.filterMap_cons_some (show _ = some (e.1, o) by rw [hl]; rfl)]
      have hns : (os.filter fun o' =>
          (lookupS keyOf (keyOf o') (removeS keyOf (keyOf o) subset)).isNone) =
          os.filter fun o' => (lookupS keyOf (keyOf o') subset).isNone :=
        List.filter_congr fun o' ho' => by
          rw [lookupS_removeS_ne (hne o' ho')]
      have hus : (os.filterMap fun o' =>
          (lookupS keyOf (keyOf o')
            (removeS keyOf (keyOf o) subset)).map fun x => (x.1, o')) =
          os.filterMap fun o' =>
            (lookupS keyOf (keyOf o') subset).map fun x => (x.1, o') :=
        List.filterMap_congr fun o' ho' => by
          rw [lookupS_removeS_ne (hne o' ho')]
      have hrem := filter_removeS (os.map keyOf) hsub hl
      rw [hns, hus, ← hrem]
      rfl

end DictLemmas

section NormalForm

variable {P R K : Type} [DecidableEq P] [DecidableEq K]
variable {keyOf : R → K} {merge : R → R → R} {pkOf : R → Nat → P}
variable {scope : P → R → Bool}

/-- Normal form of `bulk_sync` under the well-formedness hypotheses of its
call sites: distinct keys among the scoped rows and among the desired
records. -/
theorem bulk_sync_eq (db : List (P × R)) (objs : List R) (base : Nat)
    (hne : objs ≠ [])
    (hsub : ((scopedRows scope db).map fun e => keyOf e.2).Nodup)
    (hobjs : (objs.map keyOf).Nodup) :
    bulk_sync keyOf merge pkOf scope db objs base =
      if syncOk keyOf merge pkOf scope db objs base then
        some (syncResultDb keyOf merge pkOf scope db objs base,
          Stats.mk (newRecords keyOf scope db objs).length
           (objs.length - (newRecords keyOf scope db objs).length)
           (staleRows keyOf scope db objs).length)
      else none := by
  cases objs with
  | nil => exact absurd rfl hne
  | cons o os =>
    rw [bulk_sync]
    rw [mkDict_eq (db.filter fun pr => scope pr.1 pr.2) hsub,
      processObjs_eq (o :: os) (db.filter fun pr => scope pr.1 pr.2) hsub hobjs]
    simp only [scopedRows, newRecords, updPairs, staleRows, updatedDb,
      syncOk, syncResultDb, List.map_map, List.length_map]
    rfl

variable {db : List (P × R)} {objs : List R} {base : Nat}

theorem scopedRows_pk_nodup (hpk : (db.map Prod.fst).Nodup) :
    ((scopedRows scope db).map Prod.fst).Nodup :=
  hpk.sublist ((List.filter_sublist db).map Prod.fst)

theorem scopedRows_subset {e : P × R} (he : e ∈ scopedRows scope db) :
    e ∈ db :=
  (List.filter_sublist db).subset he

theorem scopedRows_scope {e : P × R} (he : e ∈ scopedRows scope db) :
    scope e.1 e.2 = true :=
  (List.mem_filter.mp he).2

theorem mem_scopedRows {e : P × R} (he : e ∈ db)
    (hs : scope e.1 e.2 = true) : e ∈ scopedRows scope db :=
  List.mem_filter.mpr ⟨he, hs⟩

theorem mem_updPairs {p : P} {o : R}
    (h : (p, o) ∈ updPairs keyOf scope db objs) :
    o ∈ objs ∧ ∃ e, lookupS keyOf (keyOf o) (scopedRows scope db) = some e ∧
      e.1 = p := by
  rw [updPairs, List.mem_filterMap] at h
  rcases h with ⟨o', ho', heq⟩
  rcases Option.map_eq_some'.mp heq with ⟨e, hl, hpe⟩
  have h2 : e.1 = p ∧ o' = o := ⟨congrArg Prod.fst hpe, congrArg Prod.snd hpe⟩
  rcases h2 with ⟨h2a, h2b⟩
  subst h2b
  exact ⟨ho', e, hl, h2a⟩

theorem updPairs_inj (hpk : (db.map Prod.fst).Nodup)
    (hobjs : (objs.map keyOf).Nodup) :
    ∀ a ∈ updPairs keyOf scope db objs,
      ∀ b ∈ updPairs keyOf scope db objs, a.1 = b.1 → a = b := by
  rintro ⟨p, o1⟩ ha ⟨p', o2⟩ hb (hpp : p = p')
  subst hpp
  rcases mem_updPairs ha with ⟨ho1, e1, hl1, he1⟩
  rcases mem_updPairs hb with ⟨ho2, e2, hl2, he2⟩
  have hm1 := lookupS_eq_some hl1
  have hm2 := lookupS_eq_some hl2
  have hee : e1 = e2 :=
    pk_inj (scopedRows_pk_nodup hpk) hm1.1 hm2.1 (he1.trans he2.symm)
  have hko : keyOf o1 = keyOf o2 := by
    rw [← hm1.2, hee, hm2.2]
  have := List.inj_on_of_nodup_map hobjs ho1 ho2 hko
  rw [this]

theorem findUpd_updPairs_of_matched (hpk : (db.map Prod.fst).Nodup)
    (hsub : ((scopedRows scope db).map fun x => keyOf x.2).Nodup)
    (hobjs : (objs.map keyOf).Nodup)
    {e : P × R} (he : e ∈ scopedRows scope db)
    {o : R} (ho : o ∈ objs) (hko : keyOf o = keyOf e.2) :
    findUpd e.1 (updPairs keyOf scope db objs) = some o := by
  apply findUpd_eq_some_of_mem (updPairs_inj hpk hobjs)
  rw [updPairs, List.mem_filterMap]
  refine ⟨o, ho, ?_⟩
  rw [hko, lookupS_self hsub he]
  rfl

theorem findUpd_updPairs_of_stale (hpk : (db.map Prod.fst).Nodup)
    {e : P × R} (he : e ∈ scopedRows scope db)
    (hkey : keyOf e.2 ∉ objs.map keyOf) :
    findUpd e.1 (updPairs keyOf scope db objs) = none := by
  rw [findUpd_eq_none]
  intro o hmem
  rcases mem_updPairs hmem with ⟨ho, e', hl', he'⟩
  have hm' := lookupS_eq_some hl'
  have : e' = e := pk_inj (scopedRows_pk_nodup hpk) hm'.1 he he'
  exact hkey (by
    rw [← this, hm'.2]
    exact List.mem_map_of_mem keyOf ho)

theorem findUpd_updPairs_of_unscoped (hpk : (db.map Prod.fst).Nodup)
    {q : P × R} (hq : q ∈ db) (hs : ¬scope q.1 q.2 = true) :
    findUpd q.1 (updPairs keyOf scope db objs) = none := by
  rw [findUpd_eq_none]
  intro o hmem
  rcases mem_updPairs hmem with ⟨ho, e, hl, he⟩
  have hm := lookupS_eq_some hl
  have : e = q := pk_inj hpk (scopedRows_subset hm.1) hq he
  exact hs (this ▸ scopedRows_scope hm.1)

theorem updatedDb_map_fst :
    (updatedDb keyOf merge scope db objs).map Prod.fst = db.map Prod.fst := by
  rw [updatedDb, List.map_map]
  refine List.map_congr_left fun pr hpr => ?_
  simp only [Function.comp_apply]
  cases findUpd pr.1 (updPairs keyOf scope db objs) <;> rfl

theorem withPks_map_snd (pkOf : R → Nat → P) (base : Nat) (l : List R) :
    (withPks pkOf base l).map Prod.snd = l := by
  induction l generalizing base with
  | nil => rfl
  | cons o os ih => rw [withPks, List.map_cons, ih]

theorem mem_withPks {pkOf : R → Nat → P} {l : List R} {pr : P × R}
    (h : pr ∈ withPks pkOf base l) :
    pr.2 ∈ l ∧ ∃ n, base ≤ n ∧ pr = (pkOf pr.2 n, pr.2) := by
  induction l generalizing base with
  | nil => cases h
  | cons o os ih =>
    rcases List.mem_cons.mp h with h1 | h1
    · subst h1
      exact ⟨List.mem_cons_self _ _, base, le_refl _, rfl⟩
    · rcases ih h1 with ⟨hm, n, hn, hpr⟩
      exact ⟨List.mem_cons_of_mem _ hm, n, le_trans (Nat.le_succ _) hn, hpr⟩

theorem withPks_mem_of_mem (pkOf : R → Nat → P) (base : Nat) {l : List R}
    {o : R} (h : o ∈ l) :
    ∃ n, base ≤ n ∧ (pkOf o n, o) ∈ withPks pkOf base l := by
  induction l generalizing base with
  | nil => cases h
  | cons x xs ih =>
    rcases List.mem_cons.mp h with h1 | h1
    · subst h1
      exact ⟨base, le_refl _, List.mem_cons_self _ _⟩
    · rcases ih (base + 1) h1 with ⟨n, hn, hm⟩
      exact ⟨n, le_trans (Nat.le_succ _) hn, List.mem_cons_of_mem _ hm⟩

theorem syncResultDb_pk_nodup
    (hok : syncOk keyOf merge pkOf scope db objs base) :
    ((syncResultDb keyOf merge pkOf scope db objs base).map Prod.fst).Nodup := by
  rw [syncOk, ← List.map_append] at hok
  exact hok.sublist ((List.filter_sublist _).map Prod.fst)

theorem created_pk_not_stale
    (hok : syncOk keyOf merge pkOf scope db objs base)
    {pr : P × R}
    (h : pr ∈ withPks pkOf base (newRecords keyOf scope db objs)) :
    pr.1 ∉ (staleRows keyOf scope db objs).map Prod.fst := by
  intro hmem
  rcases List.mem_map.mp hmem with ⟨r, hr, hr1⟩
  have hrdb : r ∈ db := scopedRows_subset ((List.filter_sublist _).subset hr)
  have h1 : pr.1 ∈ (updatedDb keyOf merge scope db objs).map Prod.fst := by
    rw [updatedDb_map_fst, ← hr1]
    exact List.mem_map_of_mem Prod.fst hrdb
  have h2 : pr.1 ∈ (withPks pkOf base (newRecords keyOf scope db objs)).map
      Prod.fst := List.mem_map_of_mem Prod.fst h
  exact (List.disjoint_of_nodup_append hok) h1 h2

/-- Every scoped row of a committed store is accounted for by a desired
record: either it is a freshly created row for a desired record that matched
no scoped row, or it is the matched scoped row updated from its desired
record. -/
theorem syncResultDb_scoped_mem
    (hpk : (db.map Prod.fst).Nodup)
    (hsub : ((scopedRows scope db).map fun e => keyOf e.2).Nodup)
    (hobjs : (objs.map keyOf).Nodup)
    (hkm : ∀ r o, keyOf r = keyOf o → keyOf (merge r o) = keyOf o)
    {pr : P × R}
    (hmem : pr ∈ syncResultDb keyOf merge pkOf scope db objs base)
    (hs : scope pr.1 pr.2 = true) :
    ∃ o ∈ objs, keyOf o = keyOf pr.2 ∧
      ((lookupS keyOf (keyOf o) (scopedRows scope db) = none ∧ pr.2 = o ∧
        pr ∈ withPks pkOf base (newRecords keyOf scope db objs)) ∨
       (∃ e, lookupS keyOf (keyOf o) (scopedRows scope db) = some e ∧
        pr = (e.1, merge e.2 o))) := by
  rw [syncResultDb] at hmem
  have hmem' := List.mem_filter.mp hmem
  have hpass := hmem'.2
  simp only [hs, Bool.true_and, Bool.not_eq_true', decide_eq_false_iff_not]
    at hpass
  rcases List.mem_append.mp hmem'.1 with hu | hc
  · rcases List.mem_map.mp hu with ⟨q, hq, hq2⟩
    cases hf : findUpd q.1 (updPairs keyOf scope db objs) with
    | some o =>
      rw [hf] at hq2
      rcases mem_updPairs (findUpd_mem hf) with ⟨ho, e, hl, he⟩
      have hesc := lookupS_eq_some hl
      have heq : e = q :=
        pk_inj hpk (scopedRows_subset hesc.1) hq he
      subst heq
      refine ⟨o, ho, ?_, Or.inr ⟨e, hl, hq2.symm⟩⟩
      rw [← hq2]
      exact (hkm e.2 o hesc.2).symm
    | none =>
      rw [hf] at hq2
      have heq : pr = q := hq2.symm
      subst heq
      have hpsc : pr ∈ scopedRows scope db := mem_scopedRows hq hs
      by_cases hkey : keyOf pr.2 ∈ objs.map keyOf
      · rcases List.mem_map.mp hkey with ⟨o, ho, hko⟩
        rw [findUpd_updPairs_of_matched hpk hsub hobjs hpsc ho hko] at hf
        cases hf
      · exfalso
        apply hpass
        apply List.mem_map.mpr
        exact ⟨pr, List.mem_filter.mpr ⟨hpsc, by simpa using hkey⟩, rfl⟩
  · rcases mem_withPks hc with ⟨hns, _, _, _⟩
    have hns' := List.mem_filter.mp hns
    refine ⟨pr.2, hns'.1, rfl, Or.inl ⟨?_, rfl, hc⟩⟩
    simpa using hns'.2

/-- Every desired record is represented among the scoped rows of a committed
store by exactly its key. -/
theorem syncResultDb_scoped_exists
    (hpk : (db.map Prod.fst).Nodup)
    (hsub : ((scopedRows scope db).map fun e => keyOf e.2).Nodup)
    (hobjs : (objs.map keyOf).Nodup)
    (hkm : ∀ r o, keyOf r = keyOf o → keyOf (merge r o) = keyOf o)
    (hok : syncOk keyOf merge pkOf scope db objs base)
    (hms : ∀ p r o, o ∈ objs → scope p r = true → scope p (merge r o) = true)
    (hcs : ∀ o ∈ objs, ∀ n, base ≤ n → scope (pkOf o n) o = true)
    {o : R} (ho : o ∈ objs) :
    ∃ pr ∈ syncResultDb keyOf merge pkOf scope db objs base,
      scope pr.1 pr.2 = true ∧ keyOf pr.2 = keyOf o := by
  cases hl : lookupS keyOf (keyOf o) (scopedRows scope db) with
  | some e =>
    have hesc := lookupS_eq_some hl
    have hsc : scope e.1 (merge e.2 o) = true :=
      hms _ _ _ ho (scopedRows_scope hesc.1)
    refine ⟨(e.1, merge e.2 o), ?_, hsc, hkm e.2 o hesc.2⟩
    rw [syncResultDb]
    apply List.mem_filter.mpr
    refine ⟨List.mem_append.mpr (Or.inl ?_), ?_⟩
    · apply List.mem_map.mpr
      refine ⟨e, scopedRows_subset hesc.1, ?_⟩
      rw [findUpd_updPairs_of_matched hpk hsub hobjs hesc.1 ho hesc.2.symm]
    · have hnst : e.1 ∉ (staleRows keyOf scope db objs).map Prod.fst := by
        intro hm
        rcases List.mem_map.mp hm with ⟨r, hr, hr1⟩
        have hr' := List.mem_filter.mp hr
        have hre : r = e :=
          pk_inj (scopedRows_pk_nodup hpk) hr'.1 hesc.1 hr1
        have : keyOf r.2 ∉ objs.map keyOf := by simpa using hr'.2
        exact this (by
          rw [hre, hesc.2]
          exact List.mem_map_of_mem keyOf ho)
      simp [hnst]
  | none =>
    have hns : o ∈ newRecords keyOf scope db objs :=
      List.mem_filter.mpr ⟨ho, by simp [hl]⟩
    rcases withPks_mem_of_mem pkOf base hns with ⟨n, hn, hm⟩
    refine ⟨(pkOf o n, o), ?_, hcs o ho n hn, rfl⟩
    rw [syncResultDb]
    apply List.mem_filter.mpr
    refine ⟨List.mem_append.mpr (Or.inr hm), ?_⟩
    have := created_pk_not_stale hok hm
    simp only [Bool.not_eq_true', Bool.and_eq_false_iff]
    right
    simpa using this

/-- The scoped rows of a committed store carry pairwise distinct keys. -/
theorem syncResultDb_scoped_keys_nodup
    (hpk : (db.map Prod.fst).Nodup)
    (hsub : ((scopedRows scope db).map fun e => keyOf e.2).Nodup)
    (hobjs : (objs.map keyOf).Nodup)
    (hkm : ∀ r o, keyOf r = keyOf o → keyOf (merge r o) = keyOf o)
    (hok : syncOk keyOf merge pkOf scope db objs base) :
    (((syncResultDb keyOf merge pkOf scope db objs base).filter fun pr =>
      scope pr.1 pr.2).map fun pr => keyOf pr.2).Nodup := by
  have hnd : ((syncResultDb keyOf merge pkOf scope db objs base).filter
      fun pr => scope pr.1 pr.2).Nodup :=
    (List.Nodup.of_map _ (syncResultDb_pk_nodup hok)).filter _
  refine hnd.map_on ?_
  intro a ha b hb hkab
  have ha' := List.mem_filter.mp ha
  have hb' := List.mem_filter.mp hb
  rcases syncResultDb_scoped_mem hpk hsub hobjs hkm ha'.1 ha'.2
    with ⟨oa, hoa, hka, hfa⟩
  rcases syncResultDb_scoped_mem hpk hsub hobjs hkm hb'.1 hb'.2
    with ⟨ob, hob, hkb, hfb⟩
  have hoab : oa = ob :=
    List.inj_on_of_nodup_map hobjs hoa hob
      (by rw [hka, hkb, hkab])
  subst hoab
  rcases hfa with ⟨hla, ha2, hwa⟩ | ⟨e, hle, hpe⟩
  · rcases hfb with ⟨hlb, hb2, hwb⟩ | ⟨e', hle', hpe'⟩
    · have hnsnd : ((withPks pkOf base
          (newRecords keyOf scope db objs)).map Prod.snd).Nodup := by
        rw [withPks_map_snd]
        exact (List.Nodup.of_map _ hobjs).filter _
      exact List.inj_on_of_nodup_map hnsnd hwa hwb (ha2.trans hb2.symm)
    · rw [hla] at hle'
      cases hle'
  · rcases hfb with ⟨hlb, hb2, hwb⟩ | ⟨e', hle', hpe'⟩
    · rw [hlb] at hle
      cases hle
    · rw [hle] at hle'
      cases hle'
      rw [hpe, hpe']

/-- The scoped rows of a committed store are keyed exactly by the keys of the
desired records. -/
theorem syncResultDb_scoped_keys_iff
    (hpk : (db.map Prod.fst).Nodup)
    (hsub : ((scopedRows scope db).map fun e => keyOf e.2).Nodup)
    (hobjs : (objs.map keyOf).Nodup)
    (hkm : ∀ r o, keyOf r = keyOf o → keyOf (merge r o) = keyOf o)
    (hok : syncOk keyOf merge pkOf scope db objs base)
    (hms : ∀ p r o, o ∈ objs → scope p r = true → scope p (merge r o) = true)
    (hcs : ∀ o ∈ objs, ∀ n, base ≤ n → scope (pkOf o n) o = true)
    (k : K) :
    k ∈ (((syncResultDb keyOf merge pkOf scope db objs base).filter fun pr =>
        scope pr.1 pr.2).map fun pr => keyOf pr.2) ↔ k ∈ objs.map keyOf := by
  constructor
  · intro hk
    rcases List.mem_map.mp hk with ⟨pr, hpr, hk2⟩
    have hpr' := List.mem_filter.mp hpr
    rcases syncResultDb_scoped_mem hpk hsub hobjs hkm hpr'.1 hpr'.2
      with ⟨o, ho, hko, _⟩
    rw [← hk2, ← hko]
    exact List.mem_map_of_mem keyOf ho
  · intro hk
    rcases List.mem_map.mp hk with ⟨o, ho, hko⟩
    rcases syncResultDb_scoped_exists hpk hsub hobjs hkm hok hms hcs ho
      with ⟨pr, hpr, hsc, hkey⟩
    apply List.mem_map.mpr
    exact ⟨pr, List.mem_filter.mpr ⟨hpr, hsc⟩, by rw [hkey, hko]⟩

theorem processObjs_new_length_le (objs : List R)
    (ex : List (K × (P × R))) :
    (processObjs keyOf objs ex).1.length ≤ objs.length := by
  induction objs generalizing ex with
  | nil => exact Nat.le_refl _
  | cons o os ih =>
    rw [processObjs]
    cases hd : dpop (keyOf o) ex with
    | mk fst snd =>
      cases fst with
      | none =>
        dsimp only
        exact Nat.succ_le_succ (ih snd)
      | some e =>
        dsimp only
        exact Nat.le_succ_of_le (ih snd)

/-- On every successful `bulk_sync` call the reported counts satisfy
created + updated = number of desired records (the invariant of the
`assert` at bulk_sync.py line 71). -/
theorem bulk_sync_counts {db' : List (P × R)} {st : Stats}
    (h : bulk_sync keyOf merge pkOf scope db objs base = some (db', st)) :
    st.created + st.updated = objs.length := by
  cases objs with
  | nil =>
    rw [bulk_sync] at h
    cases h
  | cons o os =>
    rw [bulk_sync] at h
    dsimp only at h
    split at h
    · have hst := (Prod.mk.injEq _ _ _ _ ▸ Option.some.injEq _ _ ▸ h :
        _ ∧ _).2
      rw [← hst]
      exact Nat.add_sub_cancel' (processObjs_new_length_le (o :: os) _)
    · cases h

/-- Rerunning `bulk_sync` with the same desired records on the store it just
committed reports zero creates, zero deletes and one update per desired
record, and leaves the store unchanged. -/
theorem bulk_sync_rerun
    (hpk : (db.map Prod.fst).Nodup)
    (hsub : ((scopedRows scope db).map fun e => keyOf e.2).Nodup)
    (hobjs : (objs.map keyOf).Nodup)
    (hkm : ∀ r o, keyOf r = keyOf o → keyOf (merge r o) = keyOf o)
    (hms : ∀ p r o, o ∈ objs → scope p r = true → scope p (merge r o) = true)
    (hcs : ∀ o ∈ objs, ∀ n, base ≤ n → scope (pkOf o n) o = true)
    (hidem : ∀ r o, merge (merge r o) o = merge r o)
    (hself : ∀ o, merge o o = o)
    (hne : objs ≠ [])
    {db' : List (P × R)} {st : Stats}
    (h : bulk_sync keyOf merge pkOf scope db objs base = some (db', st))
    (base' : Nat) :
    bulk_sync keyOf merge pkOf scope db' objs base' =
      some (db', ⟨0, objs.length, 0⟩) := by
  rw [bulk_sync_eq db objs base hne hsub hobjs] at h
  split at h
  case isFalse => cases h
  case isTrue hok =>
  have hdb' : db' = syncResultDb keyOf merge pkOf scope db objs base :=
    ((Prod.mk.injEq _ _ _ _ ▸ Option.some.injEq _ _ ▸ h : _ ∧ _).1).symm
  have hpk' : (db'.map Prod.fst).Nodup := by
    rw [hdb']
    exact syncResultDb_pk_nodup hok
  have hsub' : ((scopedRows scope db').map fun e => keyOf e.2).Nodup := by
    rw [hdb']
    exact syncResultDb_scoped_keys_nodup hpk hsub hobjs hkm hok
  have hmemchar : ∀ pr ∈ scopedRows scope db',
      ∃ o ∈ objs, keyOf o = keyOf pr.2 ∧ merge pr.2 o = pr.2 := by
    intro pr hpr
    have hm := scopedRows_subset hpr
    have hsc := scopedRows_scope hpr
    rw [hdb'] at hm
    rcases syncResultDb_scoped_mem hpk hsub hobjs hkm hm hsc
      with ⟨o, ho, hko, hcase⟩
    refine ⟨o, ho, hko, ?_⟩
    rcases hcase with ⟨_, h2, _⟩ | ⟨e, _, hpe⟩
    · rw [h2, hself]
    · have : pr.2 = merge e.2 o := congrArg Prod.snd hpe
      rw [this, hidem]
  have hnew : newRecords keyOf scope db' objs = [] := by
    rw [newRecords, List.filter_eq_nil_iff]
    intro o ho
    have hkmem : keyOf o ∈ (scopedRows scope db').map fun e => keyOf e.2 := by
      have := (syncResultDb_scoped_keys_iff hpk hsub hobjs hkm hok hms hcs
        (keyOf o)).mpr (List.mem_map_of_mem keyOf ho)
      rw [hdb']
      simpa [scopedRows] using this
    rcases List.mem_map.mp hkmem with ⟨e, he, hke⟩
    rw [← hke, lookupS_self hsub' he]
    simp
  have hstale : staleRows keyOf scope db' objs = [] := by
    rw [staleRows, List.filter_eq_nil_iff]
    intro e he
    rcases hmemchar e he with ⟨o, ho, hko, _⟩
    simp only [decide_eq_true_eq, not_not]
    exact hko ▸ List.mem_map_of_mem keyOf ho
  have hupd : updatedDb keyOf merge scope db' objs = db' := by
    rw [updatedDb]
    apply map_self
    intro pr hpr
    dsimp only
    by_cases hsc : scope pr.1 pr.2 = true
    · have hprs : pr ∈ scopedRows scope db' := mem_scopedRows hpr hsc
      rcases hmemchar pr hprs with ⟨o, ho, hko, hmerge⟩
      rw [findUpd_updPairs_of_matched hpk' hsub' hobjs hprs ho hko]
      dsimp only
      rw [hmerge]
    · rw [findUpd_updPairs_of_unscoped hpk' hpr hsc]
  have hok' : syncOk keyOf merge pkOf scope db' objs base' := by
    rw [syncOk, hnew, hupd]
    simp only [withPks, List.map_nil, List.append_nil]
    exact hpk'
  rw [bulk_sync_eq db' objs base' hne hsub' hobjs, if_pos hok']
  rw [syncResultDb, hnew, hupd, hstale]
  simp [hnew, hstale, withPks]

/-- Inversion of a successful `bulk_sync` call under the call-site
hypotheses. -/
theorem bulk_sync_inv (hne : objs ≠ [])
    (hsub : ((scopedRows scope db).map fun e => keyOf e.2).Nodup)
    (hobjs : (objs.map keyOf).Nodup)
    {db' : List (P × R)} {st : Stats}
    (h : bulk_sync keyOf merge pkOf scope db objs base = some (db', st)) :
    syncOk keyOf merge pkOf scope db objs base ∧
    db' = syncResultDb keyOf merge pkOf scope db objs base ∧
    st = ⟨(newRecords keyOf scope db objs).length,
          objs.length - (newRecords keyOf scope db objs).length,
          (staleRows keyOf scope db objs).length⟩ := by
  rw [bulk_sync_eq db objs base hne hsub hobjs] at h
  split at h
  case isTrue hok =>
    injection h with h2
    exact ⟨hok, (congrArg Prod.fst h2).symm, (congrArg Prod.snd h2).symm⟩
  case isFalse => cases h

/-- A `bulk_sync` call on an empty desired list raises before doing
anything. -/
theorem bulk_sync_nil :
    bulk_sync keyOf merge pkOf scope db ([] : List R) base = none := rfl

end NormalForm

/-! ## Snapshot instantiation facts -/

theorem mergeSnap_key (r o : SnapRec) (h : snapKeyOf r = snapKeyOf o) :
    snapKeyOf (mergeSnap r o) = snapKeyOf o := h

theorem mergeSnap_idem (r o : SnapRec) :
    mergeSnap (mergeSnap r o) o = mergeSnap r o := rfl

theorem mergeSnap_self (o : SnapRec) : mergeSnap o o = o := rfl

theorem mergeSnap_agrees (r o : SnapRec) :
    agreesOnUpdatable (mergeSnap r o) o :=
  ⟨rfl, rfl, rfl, rfl, rfl, rfl, rfl, rfl, rfl⟩

theorem agreesOnUpdatable_refl (o : SnapRec) : agreesOnUpdatable o o :=
  ⟨rfl, rfl, rfl, rfl, rfl, rfl, rfl, rfl, rfl⟩

/-- With the Snapshot primary key being the `id` column, the scoped rows of a
well-formed store have pairwise distinct keys. -/
theorem snap_scoped_keys_nodup (repo : Nat) {db : List (String × SnapRec)}
    (hpk : (db.map Prod.fst).Nodup)
    (hdbkey : ∀ pr ∈ db, pr.1 = pr.2.id) :
    ((scopedRows (snapScope repo) db).map fun e => snapKeyOf e.2).Nodup := by
  have heq : ((scopedRows (snapScope repo) db).map fun e => snapKeyOf e.2) =
      (scopedRows (snapScope repo) db).map Prod.fst :=
    List.map_congr_left fun e he => (hdbkey e (scopedRows_subset he)).symm
  rw [heq]
  exact scopedRows_pk_nodup hpk

/-- C1.  For every desired-record set D, stored set E scoped to a repository,
key `id` and exclusions {total_size, total_file_count}: after a successful
reconcile, the stored rows in scope are keyed exactly (and once each) by the
keys of D, every scoped row agrees with its desired record on the key and on
every updatable field, and every row whose key matched a previously stored
scoped row keeps that row's `total_size` and `total_file_count`. -/
theorem C1_reconcile_scoped_exact
    (repo : Nat) (db : List (String × SnapRec)) (objs : List SnapRec)
    (db' : List (String × SnapRec)) (st : Stats)
    (hpk : (db.map Prod.fst).Nodup)
    (hdbkey : ∀ pr ∈ db, pr.1 = pr.2.id)
    (hobjs : (objs.map snapKeyOf).Nodup)
    (hrepo : ∀ o ∈ objs, o.repository = repo)
    (hsucc : snapshot_bulk_sync repo db objs = some (db', st)) :
    (∀ k, (k ∈ (db'.filter fun pr => snapScope repo pr.1 pr.2).map
        fun pr => pr.2.id) ↔ k ∈ objs.map snapKeyOf) ∧
    ((db'.filter fun pr => snapScope repo pr.1 pr.2).map
        fun pr => pr.2.id).Nodup ∧
    (∀ pr ∈ db', snapScope repo pr.1 pr.2 = true →
      ∃ o ∈ objs, pr.2.id = o.id ∧ agreesOnUpdatable pr.2 o ∧
        ∀ e ∈ db, snapScope repo e.1 e.2 = true → e.2.id = o.id →
          pr.2.total_size = e.2.total_size ∧
          pr.2.total_file_count = e.2.total_file_count) := by
  have hne : objs ≠ [] := by
    intro hcon
    rw [hcon] at hsucc
    cases hsucc
  have hsub := snap_scoped_keys_nodup repo hpk hdbkey
  have hkm : ∀ r o : SnapRec, snapKeyOf r = snapKeyOf o →
      snapKeyOf (mergeSnap r o) = snapKeyOf o := mergeSnap_key
  have hms : ∀ (p : String) (r o : SnapRec), o ∈ objs →
      snapScope repo p r = true → snapScope repo p (mergeSnap r o) = true :=
    fun p r o ho _ => by
      show ((mergeSnap r o).repository == repo) = true
      simp [mergeSnap, hrepo o ho]
  have hcs : ∀ o ∈ objs, ∀ n, 0 ≤ n →
      snapScope repo (snapPkOf o n) o = true :=
    fun o ho n _ => by
      show (o.repository == repo) = true
      simp [hrepo o ho]
  rcases bulk_sync_inv hne hsub hobjs hsucc with ⟨hok, hdb', _⟩
  subst hdb'
  refine ⟨?_, ?_, ?_⟩
  · intro k
    exact syncResultDb_scoped_keys_iff hpk hsub hobjs hkm hok hms hcs k
  · exact syncResultDb_scoped_keys_nodup hpk hsub hobjs hkm hok
  · intro pr hpr hsc
    rcases syncResultDb_scoped_mem hpk hsub hobjs hkm hpr hsc
      with ⟨o, ho, hko, hcase⟩
    rcases hcase with ⟨hlnone, hpro, _⟩ | ⟨e, hlsome, hpe⟩
    · refine ⟨o, ho, hko.symm, hpro ▸ agreesOnUpdatable_refl o, ?_⟩
      intro e' he' hesc hekey
      exfalso
      have he's : e' ∈ scopedRows (snapScope repo) db := mem_scopedRows he' hesc
      exact (lookupS_eq_none.mp hlnone) e' he's (by
        show snapKeyOf e'.2 = snapKeyOf o
        rw [show snapKeyOf e'.2 = e'.2.id from rfl, hekey]
        rfl)
    · have hpr2 : pr.2 = mergeSnap e.2 o := congrArg Prod.snd hpe
      refine ⟨o, ho, hko.symm, hpr2 ▸ mergeSnap_agrees e.2 o, ?_⟩
      intro e' he' hesc hekey
      have he's : e' ∈ scopedRows (snapScope repo) db := mem_scopedRows he' hesc
      have hlself : lookupS snapKeyOf (snapKeyOf e'.2)
          (scopedRows (snapScope repo) db) = some e' := lookupS_self hsub he's
      have hkeq : snapKeyOf e'.2 = snapKeyOf o := by
        show e'.2.id = o.id
        exact hekey
      rw [hkeq, hlsome] at hlself
      injection hlself with hee
      rw [hpr2, ← hee]
      exact ⟨rfl, rfl⟩

theorem C1_reconcile_scoped_exact_witness :
    snapshot_bulk_sync 1 [("a", mkSnap "a" 1 "h1" ["old"] (some 500) (some 7))]
        [mkSnap "a" 1 "h2" ["new"] none none] =
      some ([("a", mkSnap "a" 1 "h2" ["new"] (some 500) (some 7))],
        ⟨0, 1, 0⟩) ∧
    ((∀ k, (k ∈ ([("a", mkSnap "a" 1 "h2" ["new"] (some 500) (some 7))].filter
          fun pr => snapScope 1 pr.1 pr.2).map fun pr => pr.2.id) ↔
        k ∈ [mkSnap "a" 1 "h2" ["new"] none none].map snapKeyOf) ∧
     (([("a", mkSnap "a" 1 "h2" ["new"] (some 500) (some 7))].filter
          fun pr => snapScope 1 pr.1 pr.2).map fun pr => pr.2.id).Nodup ∧
     (∀ pr ∈ [("a", mkSnap "a" 1 "h2" ["new"] (some 500) (some 7))],
        snapScope 1 pr.1 pr.2 = true →
        ∃ o ∈ [mkSnap "a" 1 "h2" ["new"] none none], pr.2.id = o.id ∧
          agreesOnUpdatable pr.2 o ∧
          ∀ e ∈ [("a", mkSnap "a" 1 "h1" ["old"] (some 500) (some 7))],
            snapScope 1 e.1 e.2 = true → e.2.id = o.id →
            pr.2.total_size = e.2.total_size ∧
            pr.2.total_file_count = e.2.total_file_count)) :=
  ⟨by decide,
   C1_reconcile_scoped_exact 1
     [("a", mkSnap "a" 1 "h1" ["old"] (some 500) (some 7))]
     [mkSnap "a" 1 "h2" ["new"] none none]
     [("a", mkSnap "a" 1 "h2" ["new"] (some 500) (some 7))] ⟨0, 1, 0⟩
     (by decide) (by decide) (by decide) (by decide) (by decide)⟩

/-- C6.  Prior Snapshot ids {a, b} in the scope of repository 1; the external
source now reports {a, c}: `sync_snapshots` reconciles with created = 1 (c),
updated = 1 (a), deleted = 1 (b), and afterwards exactly the ids {a, c} are
stored in the scope. -/
theorem C6_sync_snapshots_scenario :
    ((Repository.sync_snapshots 1
        [("a", mkSnap "a" 1 "h1" [] none none),
         ("b", mkSnap "b" 1 "h1" [] none none)]
        ⟨0, "out"⟩ (fun _ => some [rsnap "a" "h9", rsnap "c" "h3"]) 5).res =
      .ok ([Snapshot.from_restic (rsnap "a" "h9") 1 5,
            Snapshot.from_restic (rsnap "c" "h3") 1 5], ⟨1, 1, 1⟩)) ∧
    (((Repository.sync_snapshots 1
        [("a", mkSnap "a" 1 "h1" [] none none),
         ("b", mkSnap "b" 1 "h1" [] none none)]
        ⟨0, "out"⟩ (fun _ => some [rsnap "a" "h9", rsnap "c" "h3"]) 5).db.filter
          fun pr => snapScope 1 pr.1 pr.2).map fun pr => pr.2.id) =
      ["a", "c"] := by
  decide

/-- C2 counterexample: reconciling the same one-record desired set twice in a
row, the second call reports updated = 1 (every desired record is counted as
an update), not updated = 0 as the claim states. -/
theorem C2_counterexample_second_call_updates :
    snapshot_bulk_sync 1 [] [mkSnap "x" 1 "h" [] none none] =
      some ([("x", mkSnap "x" 1 "h" [] none none)], ⟨1, 0, 0⟩) ∧
    snapshot_bulk_sync 1 [("x", mkSnap "x" 1 "h" [] none none)]
        [mkSnap "x" 1 "h" [] none none] =
      some ([("x", mkSnap "x" 1 "h" [] none none)], ⟨0, 1, 0⟩) ∧
    (⟨0, 1, 0⟩ : Stats) ≠ ⟨0, 0, 0⟩ := by
  decide

/-- C2 (amended).  Calling the snapshot reconcile twice in a row with the
same desired set, the second call reports created = 0 and deleted = 0 but
updated = |D| — `bulk_sync` counts every matched record as updated without
comparing values — and it leaves the store unchanged. -/
theorem C2_second_call_counts
    (repo : Nat) (db : List (String × SnapRec)) (objs : List SnapRec)
    (db' : List (String × SnapRec)) (st : Stats)
    (hpk : (db.map Prod.fst).Nodup)
    (hdbkey : ∀ pr ∈ db, pr.1 = pr.2.id)
    (hobjs : (objs.map snapKeyOf).Nodup)
    (hrepo : ∀ o ∈ objs, o.repository = repo)
    (hsucc : snapshot_bulk_sync repo db objs = some (db', st)) :
    snapshot_bulk_sync repo db' objs = some (db', ⟨0, objs.length, 0⟩) := by
  have hne : objs ≠ [] := by
    intro hcon
    rw [hcon] at hsucc
    cases hsucc
  have hsub := snap_scoped_keys_nodup repo hpk hdbkey
  have hms : ∀ (p : String) (r o : SnapRec), o ∈ objs →
      snapScope repo p r = true → snapScope repo p (mergeSnap r o) = true :=
    fun p r o ho _ => by
      show ((mergeSnap r o).repository == repo) = true
      simp [mergeSnap, hrepo o ho]
  have hcs : ∀ o ∈ objs, ∀ n, 0 ≤ n →
      snapScope repo (snapPkOf o n) o = true :=
    fun o ho n _ => by
      show (o.repository == repo) = true
      simp [hrepo o ho]
  exact bulk_sync_rerun hpk hsub hobjs mergeSnap_key hms hcs mergeSnap_idem
    mergeSnap_self hne hsucc 0

theorem C2_second_call_counts_witness :
    snapshot_bulk_sync 1 [] [mkSnap "x" 1 "h" [] none none] =
      some ([("x", mkSnap "x" 1 "h" [] none none)], ⟨1, 0, 0⟩) ∧
    snapshot_bulk_sync 1 [("x", mkSnap "x" 1 "h" [] none none)]
        [mkSnap "x" 1 "h" [] none none] =
      some ([("x", mkSnap "x" 1 "h" [] none none)], ⟨0, 1, 0⟩) :=
  ⟨by decide,
   C2_second_call_counts 1 [] [mkSnap "x" 1 "h" [] none none]
     [("x", mkSnap "x" 1 "h" [] none none)] ⟨1, 0, 0⟩
     (by decide) (by decide) (by decide) (by decide) (by decide)⟩

/-- C4.  Reconciles are all-or-nothing: whenever `sync_snapshots` or
`get_children` propagates an error, the stored rows are exactly as before
the call; and on every successful reconcile the reported counts satisfy
created + updated = number of desired records (the invariant of the
`assert` before commit), for both the Snapshot and the SnapshotPath
instantiations. -/
theorem C4_reconcile_atomic_and_counts :
    (∀ (repo : Nat) (db : List (String × SnapRec)) (proc : ProcResult)
       (parse : String → Option (List ResticSnap)) (now : Nat)
       (e : SyncError),
       (Repository.sync_snapshots repo db proc parse now).res = .error e →
       (Repository.sync_snapshots repo db proc parse now).db = db) ∧
    (∀ (selfPk : Nat) (selfRec : PathRec) (db : List (Nat × PathRec))
       (proc : ProcResult) (parse : String → Option (List ResticNode))
       (now : Nat) (force : Bool) (e : SyncError),
       (SnapshotPath.get_children selfPk selfRec db proc parse now force).res =
         .error e →
       (SnapshotPath.get_children selfPk selfRec db proc parse now force).db =
         db) ∧
    (∀ (repo : Nat) (db db' : List (String × SnapRec)) (objs : List SnapRec)
       (st : Stats), snapshot_bulk_sync repo db objs = some (db', st) →
       st.created + st.updated = objs.length) ∧
    (∀ (selfPk : Nat) (snapId selfPath : String)
       (db db' : List (Nat × PathRec)) (files : List PathRec) (st : Stats),
       path_bulk_sync selfPk snapId selfPath db files = some (db', st) →
       st.created + st.updated = files.length) := by
  refine ⟨?_, ?_, ?_, ?_⟩
  · intro repo db proc parse now e h
    rw [Repository.sync_snapshots] at h ⊢
    cases hs : ResticWrapper.snapshots proc parse with
    | error e' => rfl
    | ok raws =>
      rw [hs] at h
      dsimp only at h ⊢
      cases hb : snapshot_bulk_sync repo db
          (raws.map fun s => Snapshot.from_restic s repo now) with
      | none => rfl
      | some p =>
        obtain ⟨db2, st2⟩ := p
        rw [hb] at h
        dsimp only at h
        cases h
  · intro selfPk selfRec db proc parse now force e h
    rw [SnapshotPath.get_children] at h ⊢
    by_cases hcached : (selfRec.fetched_on.isSome && !force) = true
    · rw [if_pos hcached] at h
      cases h
    · rw [if_neg hcached] at h ⊢
      cases hl : ResticWrapper.ls proc parse with
      | error e' => rfl
      | ok raw =>
        rw [hl] at h
        dsimp only at h ⊢
        cases hb : path_bulk_sync selfPk selfRec.snapshot selfRec.path db
            (raw.map fun x => SnapshotPath.from_restic x selfRec.snapshot) with
        | none => rfl
        | some p =>
          obtain ⟨db2, st2⟩ := p
          rw [hb] at h
          dsimp only at h
          cases h
  · intro repo db db' objs st h
    exact bulk_sync_counts h
  · intro selfPk snapId selfPath db db' files st h
    exact bulk_sync_counts h

theorem C4_reconcile_atomic_and_counts_witness :
    ((Repository.sync_snapshots 1 [("a", mkSnap "a" 1 "h1" [] none none)]
        ⟨1, ""⟩ (fun _ => some []) 5).res =
      .error (.tool (.nonZeroExit 1))) ∧
    ((Repository.sync_snapshots 1 [("a", mkSnap "a" 1 "h1" [] none none)]
        ⟨1, ""⟩ (fun _ => some []) 5).db =
      [("a", mkSnap "a" 1 "h1" [] none none)]) ∧
    snapshot_bulk_sync 1 [] [mkSnap "x" 1 "h" [] none none] =
      some ([("x", mkSnap "x" 1 "h" [] none none)], ⟨1, 0, 0⟩) ∧
    (⟨1, 0, 0⟩ : Stats).created + (⟨1, 0, 0⟩ : Stats).updated =
      [mkSnap "x" 1 "h" [] none none].length :=
  ⟨by decide,
   C4_reconcile_atomic_and_counts.1 1 [("a", mkSnap "a" 1 "h1" [] none none)]
     ⟨1, ""⟩ (fun _ => some []) 5 (.tool (.nonZeroExit 1)) (by decide),
   by decide,
   C4_reconcile_atomic_and_counts.2.2.1 1 []
     [("x", mkSnap "x" 1 "h" [] none none)] [mkSnap "x" 1 "h" [] none none]
     ⟨1, 0, 0⟩ (by decide)⟩

/-- C10.  An empty desired list makes `bulk_sync` raise (`objs[0]` is an
`IndexError`) before touching the store: an authoritative listing of zero
snapshots or zero directory entries never deletes the rows in scope — the
snapshot reconcile propagates the abort with the store unchanged, and
`get_children` on a node whose listing comes back empty propagates the abort
with the store unchanged and `fetched_on` not stamped. -/
theorem C10_empty_desired_list_aborts
    (repo selfPk : Nat) (sdb : List (String × SnapRec))
    (pdb : List (Nat × PathRec)) (selfRec : PathRec) (proc : ProcResult)
    (sparse : String → Option (List ResticSnap))
    (pparse : String → Option (List ResticNode)) (now : Nat) (force : Bool)
    (hproc : proc.returncode = 0)
    (hsparse : sparse proc.stdout = some [])
    (hpparse : pparse proc.stdout = some [])
    (hfetch : (selfRec.fetched_on.isSome && !force) = false) :
    bulk_sync snapKeyOf mergeSnap snapPkOf (snapScope repo) sdb [] 0 = none ∧
    Repository.sync_snapshots repo sdb proc sparse now =
      ⟨sdb, .error .reconcileAborted⟩ ∧
    SnapshotPath.get_children selfPk selfRec pdb proc pparse now force =
      ⟨pdb, selfRec, .error .reconcileAborted, 1⟩ := by
  refine ⟨rfl, ?_, ?_⟩
  · rw [Repository.sync_snapshots, ResticWrapper.snapshots,
      ResticWrapper.call, if_pos hproc]
    dsimp only
    rw [hsparse]
    rfl
  · rw [SnapshotPath.get_children, if_neg (by simp [hfetch]),
      ResticWrapper.ls, ResticWrapper.call, if_pos hproc]
    dsimp only
    rw [hpparse]
    rfl

theorem C10_empty_desired_list_aborts_witness :
    ((0 : Int) = 0 ∧ (fun _ : String => some ([] : List ResticSnap)) "" =
      some [] ∧ (fun _ : String => some ([] : List ResticNode)) "" =
      some [] ∧ ((rootDefaults "s").fetched_on.isSome && !false) = false) ∧
    (bulk_sync snapKeyOf mergeSnap snapPkOf (snapScope 1)
      [("a", mkSnap "a" 1 "h1" [] none none)] [] 0 = none ∧
    Repository.sync_snapshots 1 [("a", mkSnap "a" 1 "h1" [] none none)]
      ⟨0, ""⟩ (fun _ => some []) 7 =
      ⟨[("a", mkSnap "a" 1 "h1" [] none none)], .error .reconcileAborted⟩ ∧
    SnapshotPath.get_children 1 (rootDefaults "s") [(1, rootDefaults "s")]
      ⟨0, ""⟩ (fun _ => some []) 7 false =
      ⟨[(1, rootDefaults "s")], rootDefaults "s",
        .error .reconcileAborted, 1⟩) :=
  ⟨by decide,
   C10_empty_desired_list_aborts 1 1 [("a", mkSnap "a" 1 "h1" [] none none)]
     [(1, rootDefaults "s")] (rootDefaults "s") ⟨0, ""⟩ (fun _ => some [])
     (fun _ => some []) 7 false (by decide) (by decide) (by decide)
     (by decide)⟩

/-- C3 counterexample: a desired set with two records carrying the same
(snapshot, path) key is NOT rejected by the SnapshotPath reconcile — the
call succeeds (`bulk_sync` performs no duplicate-key check and the
SnapshotPath table has no uniqueness constraint on the key), committing two
scoped rows with the same key and reporting created = 2. -/
theorem C3_counterexample_duplicate_keys_committed :
    ¬([SnapshotPath.from_restic (rnode "f" "/f") "s",
       SnapshotPath.from_restic (rnode "f" "/f") "s"].map pathKeyOf).Nodup ∧
    path_bulk_sync 1 "s" "/" [(1, rootDefaults "s")]
        [SnapshotPath.from_restic (rnode "f" "/f") "s",
         SnapshotPath.from_restic (rnode "f" "/f") "s"] =
      some ([(1, rootDefaults "s"),
             (2, SnapshotPath.from_restic (rnode "f" "/f") "s"),
             (3, SnapshotPath.from_restic (rnode "f" "/f") "s")],
        ⟨2, 0, 0⟩) := by
  decide

section DupKeyLemmas

variable {P R K : Type} [DecidableEq P] [DecidableEq K]
variable {keyOf : R → K} {merge : R → R → R}

theorem dpop_none_snd (k : K) (ex : List (K × (P × R)))
    (h : (dpop k ex).1 = none) : (dpop k ex).2 = ex := by
  induction ex with
  | nil => rfl
  | cons e rest ih =>
    by_cases he : e.1 = k
    · rw [dpop, if_pos he] at h
      cases h
    · rw [dpop, if_neg he] at h ⊢
      dsimp only at h ⊢
      rw [ih h]

theorem dpop_some_mem {k : K} {ex : List (K × (P × R))} {v : P × R}
    (h : (dpop k ex).1 = some v) : k ∈ ex.map Prod.fst := by
  induction ex with
  | nil => cases h
  | cons e rest ih =>
    by_cases he : e.1 = k
    · rw [List.map_cons, he]
      exact List.mem_cons_self _ _
    · rw [dpop, if_neg he] at h
      exact List.mem_cons_of_mem _ (ih h)

theorem dpop_snd_sublist (k : K) (ex : List (K × (P × R))) :
    List.Sublist (dpop k ex).2 ex := by
  induction ex with
  | nil => exact List.Sublist.refl _
  | cons e rest ih =>
    rw [dpop]
    by_cases he : e.1 = k
    · rw [if_pos he]
      exact List.sublist_cons_self e rest
    · rw [if_neg he]
      exact ih.cons₂ e

theorem dpop_some_key_not_mem {k : K} {ex : List (K × (P × R))} {v : P × R}
    (hex : (ex.map Prod.fst).Nodup) (h : (dpop k ex).1 = some v) :
    k ∉ ((dpop k ex).2).map Prod.fst := by
  induction ex with
  | nil => cases h
  | cons e rest ih =>
    simp only [List.map_cons, List.nodup_cons] at hex
    by_cases he : e.1 = k
    · rw [dpop, if_pos he]
      exact he ▸ hex.1
    · rw [dpop, if_neg he] at h ⊢
      dsimp only at h ⊢
      simp only [List.map_cons, List.mem_cons, not_or]
      exact ⟨fun hk => he hk.symm, ih hex.2 h⟩

theorem dinsert_map_fst (k : K) (v : P × R) (m : List (K × (P × R))) :
    (dinsert k v m).map Prod.fst =
      if k ∈ m.map Prod.fst then m.map Prod.fst
      else m.map Prod.fst ++ [k] := by
  induction m with
  | nil => simp [dinsert]
  | cons e rest ih =>
    by_cases he : e.1 = k
    · rw [dinsert, if_pos he]
      simp [he]
    · rw [dinsert, if_neg he]
      simp only [List.map_cons, List.mem_cons]
      rw [ih]
      by_cases hk : k ∈ rest.map Prod.fst
      · rw [if_pos hk, if_pos (Or.inr hk)]
      · rw [if_neg hk, if_neg (by
          rintro (h1 | h1)
          · exact he h1.symm
          · exact hk h1)]
        rfl

theorem foldl_dinsert_keys_nodup (subset : List (P × R))
    (acc : List (K × (P × R))) (hacc : (acc.map Prod.fst).Nodup) :
    (((subset.foldl (fun m pr => dinsert (keyOf pr.2) pr m) acc)).map
      Prod.fst).Nodup := by
  induction subset generalizing acc with
  | nil => exact hacc
  | cons x xs ih =>
    rw [List.foldl_cons]
    apply ih
    rw [dinsert_map_fst]
    by_cases hk : keyOf x.2 ∈ acc.map Prod.fst
    · rw [if_pos hk]
      exact hacc
    · rw [if_neg hk]
      simp [List.nodup_append, hacc, hk]

theorem mkDict_keys_nodup (subset : List (P × R)) :
    ((mkDict keyOf subset).map Prod.fst).Nodup :=
  foldl_dinsert_keys_nodup subset [] (by simp)

theorem foldl_dinsert_keys_mem {k : K} (subset : List (P × R))
    (acc : List (K × (P × R)))
    (h : k ∈ ((subset.foldl (fun m pr => dinsert (keyOf pr.2) pr m)
      acc)).map Prod.fst) :
    k ∈ acc.map Prod.fst ∨ ∃ e ∈ subset, keyOf e.2 = k := by
  induction subset generalizing acc with
  | nil => exact Or.inl h
  | cons x xs ih =>
    rw [List.foldl_cons] at h
    rcases ih _ h with h1 | ⟨e, he, hke⟩
    · rw [dinsert_map_fst] at h1
      by_cases hk : keyOf x.2 ∈ acc.map Prod.fst
      · rw [if_pos hk] at h1
        exact Or.inl h1
      · rw [if_neg hk] at h1
        rcases List.mem_append.mp h1 with h2 | h2
        · exact Or.inl h2
        · refine Or.inr ⟨x, List.mem_cons_self _ _, ?_⟩
          exact (List.mem_singleton.mp h2).symm
    · exact Or.inr ⟨e, List.mem_cons_of_mem _ he, hke⟩

theorem mkDict_keys_mem {k : K} {subset : List (P × R)}
    (h : k ∈ (mkDict keyOf subset).map Prod.fst) :
    ∃ e ∈ subset, keyOf e.2 = k := by
  rcases foldl_dinsert_keys_mem subset [] h with h1 | h1
  · cases h1
  · exact h1

/-- In the matching loop, each key can be absorbed by the dictionary at most
once: any further desired records with that key land in the created list. -/
theorem processObjs_new_count (k : K) (objs : List R)
    (ex : List (K × (P × R))) (hex : (ex.map Prod.fst).Nodup) :
    (objs.map keyOf).count k ≤
      ((processObjs keyOf objs ex).1.map keyOf).count k +
        (if k ∈ ex.map Prod.fst then 1 else 0) := by
  induction objs generalizing ex with
  | nil => simp [processObjs]
  | cons o os ih =>
    rw [processObjs]
    cases hd : dpop (keyOf o) ex with
    | mk ofst osnd =>
      cases ofst with
      | none =>
        have hsnd : osnd = ex := by
          have h2 := dpop_none_snd (keyOf o) ex
            (show (dpop (keyOf o) ex).1 = none by rw [hd])
          rw [hd] at h2
          exact h2
        subst hsnd
        dsimp only
        simp only [List.map_cons, List.count_cons]
        have := ih osnd hex
        by_cases hko : keyOf o = k <;> simp [hko] <;> omega
      | some e =>
        have hmem : keyOf o ∈ ex.map Prod.fst :=
          dpop_some_mem (show (dpop (keyOf o) ex).1 = some e by rw [hd])
        have hsub : List.Sublist osnd ex := by
          have h2 := dpop_snd_sublist (keyOf o) ex
          rw [hd] at h2
          exact h2
        have hsnodup : (osnd.map Prod.fst).Nodup :=
          hex.sublist (hsub.map Prod.fst)
        have hnotmem : keyOf o ∉ osnd.map Prod.fst := by
          have h2 := dpop_some_key_not_mem hex
            (show (dpop (keyOf o) ex).1 = some e by rw [hd])
          rw [hd] at h2
          exact h2
        dsimp only
        simp only [List.map_cons, List.count_cons]
        have hih := ih osnd hsnodup
        by_cases hko : keyOf o = k
        · subst hko
          rw [if_pos hmem, if_neg hnotmem] at *
          simp at hih ⊢
          omega
        · have hmono : (if k ∈ osnd.map Prod.fst then 1 else 0) ≤
              (if k ∈ ex.map Prod.fst then 1 else 0) := by
            by_cases hk : k ∈ osnd.map Prod.fst
            · rw [if_pos hk, if_pos (hsub.map Prod.fst |>.subset hk)]
            · rw [if_neg hk]
              omega
          simp [hko] at hih ⊢
          omega

/-- `bulk_update` never changes a primary key. -/
theorem map_fst_bulk_update (db : List (P × R)) (us : List (P × R)) :
    ((db.map fun pr =>
      match findUpd pr.1 us with
      | some o => (pr.1, merge pr.2 o)
      | none => pr).map Prod.fst) = db.map Prod.fst := by
  rw [List.map_map]
  refine List.map_congr_left fun pr hpr => ?_
  simp only [Function.comp_apply]
  cases findUpd pr.1 us <;> rfl

end DupKeyLemmas

/-- Created Snapshot rows are stored under their `id`. -/
theorem withPks_snap_fst (base : Nat) (l : List SnapRec) :
    (withPks snapPkOf base l).map Prod.fst = l.map snapKeyOf := by
  induction l generalizing base with
  | nil => rfl
  | cons o os ih =>
    rw [withPks, List.map_cons, List.map_cons, ih]
    rfl

/-- C3 (amended).  `bulk_sync` performs no explicit duplicate-key check (its
`assert` is vacuous), so the fate of a duplicate-keyed desired set depends
on the store's own constraints: for the Snapshot reconcile, whose key `id`
is the primary key, the duplicate collides in `bulk_create` and the call
aborts with no write; for the SnapshotPath reconcile, whose key
(snapshot, path) carries no uniqueness constraint, the call succeeds and
silently commits duplicate-keyed rows (see the counterexample). -/
theorem C3_snapshot_duplicate_keys_abort
    (repo : Nat) (db : List (String × SnapRec)) (objs : List SnapRec)
    (hdbkey : ∀ pr ∈ db, pr.1 = pr.2.id)
    (hdup : ¬(objs.map snapKeyOf).Nodup) :
    snapshot_bulk_sync repo db objs = none := by
  obtain ⟨k, hk⟩ : ∃ k, 2 ≤ (objs.map snapKeyOf).count k := by
    by_contra hcon
    push_neg at hcon
    refine hdup (List.nodup_iff_count_le_one.mpr fun a => ?_)
    have := hcon a
    omega
  cases objs with
  | nil => simp at hk
  | cons o os =>
    rw [snapshot_bulk_sync, bulk_sync]
    dsimp only
    rw [if_neg]
    intro hnodup
    have hcount := List.nodup_iff_count_le_one.mp hnodup k
    rw [List.count_append] at hcount
    rw [map_fst_bulk_update, withPks_snap_fst] at hcount
    have hpo : ((o :: os).map snapKeyOf).count k ≤
        (((processObjs snapKeyOf (o :: os) (mkDict snapKeyOf
          (db.filter fun pr => snapScope repo pr.1 pr.2))).1.map
            snapKeyOf).count k) +
          (if k ∈ (mkDict snapKeyOf
            (db.filter fun pr => snapScope repo pr.1 pr.2)).map Prod.fst
           then 1 else 0) :=
      processObjs_new_count k (o :: os)
        (mkDict snapKeyOf (db.filter fun pr => snapScope repo pr.1 pr.2))
        (mkDict_keys_nodup _)
    by_cases hkex : k ∈ (mkDict snapKeyOf
        (db.filter fun pr => snapScope repo pr.1 pr.2)).map Prod.fst
    · rcases mkDict_keys_mem hkex with ⟨e, he, hke⟩
      have hedb : e ∈ db := (List.filter_sublist db).subset he
      have hkdb : k ∈ db.map Prod.fst := by
        apply List.mem_map.mpr
        exact ⟨e, hedb, by rw [hdbkey e hedb]; exact hke⟩
      have h1 : 1 ≤ (db.map Prod.fst).count k :=
        List.count_pos_iff.mpr hkdb
      rw [if_pos hkex] at hpo
      omega
    · rw [if_neg hkex] at hpo
      omega

theorem C3_snapshot_duplicate_keys_abort_witness :
    (¬([mkSnap "x" 1 "h" [] none none,
        mkSnap "x" 1 "h2" [] none none].map snapKeyOf).Nodup) ∧
    snapshot_bulk_sync 1 [] [mkSnap "x" 1 "h" [] none none,
      mkSnap "x" 1 "h2" [] none none] = none :=
  ⟨by decide,
   C3_snapshot_duplicate_keys_abort 1 []
     [mkSnap "x" 1 "h" [] none none, mkSnap "x" 1 "h2" [] none none]
     (by decide) (by decide)⟩

/-! ## SnapshotPath instantiation facts -/

/-- Created SnapshotPath rows get consecutive fresh auto primary keys. -/
theorem withPks_path_fst (base : Nat) (l : List PathRec) :
    (withPks pathPkOf base l).map Prod.fst = List.range' base l.length := by
  induction l generalizing base with
  | nil => rfl
  | cons o os ih =>
    rw [withPks, List.map_cons, List.length_cons, List.range'_succ, ih]
    rfl

theorem freshPk_gt {db : List (Nat × PathRec)} {p : Nat}
    (h : p ∈ db.map Prod.fst) : p < freshPk db := by
  rw [freshPk]
  exact Nat.lt_succ_of_le (le_foldr_max _ _ h)

/-- With fresh auto primary keys, the `bulk_create` integrity check of a
SnapshotPath reconcile always passes on a well-formed store. -/
theorem path_syncOk (selfPk : Nat) (snapId selfPath : String)
    (db : List (Nat × PathRec)) (files : List PathRec)
    (hpk : (db.map Prod.fst).Nodup) :
    syncOk pathKeyOf mergePath pathPkOf (children_q selfPk snapId selfPath)
      db files (freshPk db) := by
  rw [syncOk, updatedDb_map_fst, withPks_path_fst, List.nodup_append]
  refine ⟨hpk, by simp [List.nodup_range'], ?_⟩
  intro x hx hy
  have h1 := freshPk_gt hx
  have h2 := (List.mem_range'_1.mp hy).1
  omega

/-- Replacing the node's own row (its `save()`) does not change the result of
a children query, which excludes the node by primary key. -/
theorem filter_map_replace (selfPk : Nat) (snapId selfPath : String)
    (x : PathRec) (db2 : List (Nat × PathRec)) :
    ((db2.map fun pr => if pr.1 = selfPk then (pr.1, x) else pr).filter
      fun pr => children_q selfPk snapId selfPath pr.1 pr.2) =
    db2.filter fun pr => children_q selfPk snapId selfPath pr.1 pr.2 := by
  induction db2 with
  | nil => rfl
  | cons pr rest ih =>
    rw [List.map_cons]
    by_cases hp : pr.1 = selfPk
    · rw [if_pos hp]
      rw [List.filter_cons_of_neg (by simp [children_q, hp]),
        List.filter_cons_of_neg (by simp [children_q, hp])]
      exact ih
    · rw [if_neg hp]
      simp only [List.filter_cons]
      by_cases hc : children_q selfPk snapId selfPath pr.1 pr.2 = true
      · rw [if_pos hc, if_pos hc, ih]
      · rw [if_neg hc, if_neg hc]
        exact ih

/-- C5.  A SnapshotPath node fetched once (its initial `get_children` call
stamps `fetched_on` and returns the converted listing) and queried again
without `force_sync` issues zero external-source calls, leaves the store
untouched, and returns the same set of children — the stored rows prefixed
by its path, excluding itself — that the initial fetch returned. -/
theorem C5_get_children_cached_roundtrip
    (selfPk : Nat) (selfRec : PathRec) (db : List (Nat × PathRec))
    (proc proc2 : ProcResult)
    (parse parse2 : String → Option (List ResticNode))
    (raw : List ResticNode) (now now2 : Nat)
    (hpk : (db.map Prod.fst).Nodup)
    (hselfmem : (selfPk, selfRec) ∈ db)
    (hunfetched : selfRec.fetched_on = none)
    (hls : ResticWrapper.ls proc parse = .ok raw)
    (hne : raw ≠ [])
    (hsub : ((scopedRows (children_q selfPk selfRec.snapshot selfRec.path)
        db).map fun e => pathKeyOf e.2).Nodup)
    (hkeys : ((raw.map fun e =>
        SnapshotPath.from_restic e selfRec.snapshot).map pathKeyOf).Nodup)
    (hpaths : ∀ e ∈ raw, startswith selfRec.path e.path = true) :
    ∃ db1 self1 cs₂,
      SnapshotPath.get_children selfPk selfRec db proc parse now false =
        ⟨db1, self1,
          .ok (raw.map fun e => SnapshotPath.from_restic e selfRec.snapshot),
          1⟩ ∧
      SnapshotPath.get_children selfPk self1 db1 proc2 parse2 now2 false =
        ⟨db1, self1, .ok cs₂, 0⟩ ∧
      cs₂.Nodup ∧
      (∀ c, c ∈ cs₂ ↔
        c ∈ raw.map fun e => SnapshotPath.from_restic e selfRec.snapshot) := by
  have hfne : (raw.map fun e =>
      SnapshotPath.from_restic e selfRec.snapshot) ≠ [] := by
    intro hcon
    exact hne (List.map_eq_nil_iff.mp hcon)
  have hok := path_syncOk selfPk selfRec.snapshot selfRec.path db
    (raw.map fun e => SnapshotPath.from_restic e selfRec.snapshot) hpk
  have hbs := @bulk_sync_eq Nat PathRec (String × String) _ _ pathKeyOf
    mergePath pathPkOf (children_q selfPk selfRec.snapshot selfRec.path) db
    (raw.map fun e => SnapshotPath.from_restic e selfRec.snapshot)
    (freshPk db) hfne hsub hkeys
  rw [if_pos hok] at hbs
  have hkm : ∀ r o : PathRec, pathKeyOf r = pathKeyOf o →
      pathKeyOf (mergePath r o) = pathKeyOf o := fun _ _ _ => rfl
  have hms : ∀ (p : Nat) (r o : PathRec),
      o ∈ (raw.map fun e => SnapshotPath.from_restic e selfRec.snapshot) →
      children_q selfPk selfRec.snapshot selfRec.path p r = true →
      children_q selfPk selfRec.snapshot selfRec.path p (mergePath r o) =
        true := by
    intro p r o ho hs
    rcases List.mem_map.mp ho with ⟨e, he, heo⟩
    simp only [children_q, Bool.and_eq_true] at hs ⊢
    refine ⟨⟨?_, ?_⟩, hs.2⟩
    · rw [← heo]
      exact beq_self_eq_true _
    · rw [← heo]
      exact hpaths e he
  have hcs : ∀ o ∈ (raw.map fun e => SnapshotPath.from_restic e
      selfRec.snapshot), ∀ n, freshPk db ≤ n →
      children_q selfPk selfRec.snapshot selfRec.path (pathPkOf o n) o =
        true := by
    intro o ho n hn
    rcases List.mem_map.mp ho with ⟨e, he, heo⟩
    have hlt : selfPk < freshPk db :=
      freshPk_gt (List.mem_map_of_mem Prod.fst hselfmem)
    have hne2 : n ≠ selfPk := by omega
    simp only [children_q, Bool.and_eq_true]
    refine ⟨⟨?_, ?_⟩, ?_⟩
    · rw [← heo]
      exact beq_self_eq_true _
    · rw [← heo]
      exact hpaths e he
    · show (!(n == selfPk)) = true
      simp [hne2]
  refine ⟨(syncResultDb pathKeyOf mergePath pathPkOf
      (children_q selfPk selfRec.snapshot selfRec.path) db
      (raw.map fun e => SnapshotPath.from_restic e selfRec.snapshot)
      (freshPk db)).map fun pr => if pr.1 = selfPk
        then (pr.1, { selfRec with fetched_on := some now }) else pr,
    { selfRec with fetched_on := some now },
    ((syncResultDb pathKeyOf mergePath pathPkOf
      (children_q selfPk selfRec.snapshot selfRec.path) db
      (raw.map fun e => SnapshotPath.from_restic e selfRec.snapshot)
      (freshPk db)).filter fun pr =>
        children_q selfPk selfRec.snapshot selfRec.path pr.1 pr.2).map
      Prod.snd, ?_, ?_, ?_, ?_⟩
  · rw [SnapshotPath.get_children, if_neg (by simp [hunfetched]), hls]
    dsimp only
    rw [path_bulk_sync, hbs]
  · rw [SnapshotPath.get_children, if_pos (show _ = true by rfl)]
    have hrepl := filter_map_replace selfPk selfRec.snapshot selfRec.path
      { selfRec with fetched_on := some now }
      (syncResultDb pathKeyOf mergePath pathPkOf
        (children_q selfPk selfRec.snapshot selfRec.path) db
        (raw.map fun e => SnapshotPath.from_restic e selfRec.snapshot)
        (freshPk db))
    rw [show ({ selfRec with fetched_on := some now } : PathRec).snapshot =
        selfRec.snapshot from rfl,
      show ({ selfRec with fetched_on := some now } : PathRec).path =
        selfRec.path from rfl, hrepl]
  · have hnod := syncResultDb_scoped_keys_nodup hpk hsub hkeys hkm hok
    refine List.Nodup.of_map pathKeyOf ?_
    rw [List.map_map]
    exact hnod
  · intro c
    constructor
    · intro hc
      rcases List.mem_map.mp hc with ⟨pr, hpr, hc2⟩
      have hpr' := List.mem_filter.mp hpr
      rcases syncResultDb_scoped_mem hpk hsub hkeys hkm hpr'.1 hpr'.2 with
        ⟨o, ho, hko, hcase⟩
      have hpro : pr.2 = o := by
        rcases hcase with ⟨_, h2, _⟩ | ⟨e, _, hpe⟩
        · exact h2
        · exact congrArg Prod.snd hpe
      rw [← hc2, hpro]
      exact ho
    · intro hcf
      rcases syncResultDb_scoped_exists hpk hsub hkeys hkm hok hms hcs hcf
        with ⟨pr, hpr, hsc, hkey⟩
      rcases syncResultDb_scoped_mem hpk hsub hkeys hkm hpr hsc with
        ⟨o', ho', hko', hcase⟩
      have ho'c : o' = c :=
        List.inj_on_of_nodup_map hkeys ho' hcf (by rw [hko', hkey])
      have hpr2 : pr.2 = o' := by
        rcases hcase with ⟨_, h2, _⟩ | ⟨e, _, hpe⟩
        · exact h2
        · exact congrArg Prod.snd hpe
      apply List.mem_map.mpr
      exact ⟨pr, List.mem_filter.mpr ⟨hpr, hsc⟩, by rw [hpr2, ho'c]⟩

theorem C5_get_children_cached_roundtrip_witness :
    (ResticWrapper.ls ⟨0, "out"⟩ (fun _ => some [rnode "f" "/f"]) =
        .ok [rnode "f" "/f"] ∧
     (rootDefaults "s").fetched_on = none ∧
     startswith (rootDefaults "s").path (rnode "f" "/f").path = true) ∧
    (∃ db1 self1 cs₂,
      SnapshotPath.get_children 1 (rootDefaults "s") [(1, rootDefaults "s")]
          ⟨0, "out"⟩ (fun _ => some [rnode "f" "/f"]) 9 false =
        ⟨db1, self1,
          .ok ([rnode "f" "/f"].map fun e =>
            SnapshotPath.from_restic e (rootDefaults "s").snapshot), 1⟩ ∧
      SnapshotPath.get_children 1 self1 db1 ⟨0, ""⟩ (fun _ => none) 10 false =
        ⟨db1, self1, .ok cs₂, 0⟩ ∧
      cs₂.Nodup ∧
      (∀ c, c ∈ cs₂ ↔ c ∈ [rnode "f" "/f"].map fun e =>
        SnapshotPath.from_restic e (rootDefaults "s").snapshot)) :=
  ⟨⟨by decide, by decide, by decide⟩,
   C5_get_children_cached_roundtrip 1 (rootDefaults "s")
     [(1, rootDefaults "s")] ⟨0, "out"⟩ ⟨0, ""⟩
     (fun _ => some [rnode "f" "/f"]) (fun _ => none) [rnode "f" "/f"] 9 10
     (by decide) (by decide) (by decide) (by decide) (by decide) (by decide)
     (by decide) (by decide)⟩

/-- C7.  A failure of the external tool — non-zero exit status, or output the
parser rejects — surfaces from each adapter call (snapshots, ls, stats) as a
distinct error value, never as an empty collection; the error propagates to
the caller (`sync_snapshots`, `get_children`, `sync`), and the corresponding
reconcile is aborted before any write: the stored rows are returned
unchanged. -/
theorem C7_tool_failures_surface_and_abort
    (proc : ProcResult)
    (sparse : String → Option (List ResticSnap))
    (pparse : String → Option (List ResticNode))
    (stparse : String → Option StatsRec)
    (hfail : proc.returncode ≠ 0 ∨
      (sparse proc.stdout = none ∧ pparse proc.stdout = none ∧
       stparse proc.stdout = none)) :
    (∃ e, ResticWrapper.snapshots proc sparse = .error e) ∧
    (∃ e, ResticWrapper.ls proc pparse = .error e) ∧
    (∃ e, ResticWrapper.stats proc stparse = .error e) ∧
    (∀ (repo : Nat) (db : List (String × SnapRec)) (now : Nat), ∃ e,
      Repository.sync_snapshots repo db proc sparse now =
        ⟨db, .error (.tool e)⟩) ∧
    (∀ (selfPk : Nat) (selfRec : PathRec) (db : List (Nat × PathRec))
       (now : Nat) (force : Bool),
      (selfRec.fetched_on.isSome && !force) = false → ∃ e,
      SnapshotPath.get_children selfPk selfRec db proc pparse now force =
        ⟨db, selfRec, .error (.tool e), 1⟩) ∧
    (∀ (snap : SnapRec) (pathDb : List (Nat × PathRec)) (full : Bool)
       (lsProc : ProcResult) (lsParse : String → Option (List ResticNode))
       (now : Nat),
      (full || snap.total_size.isNone) = true → ∃ e,
      Snapshot.sync snap pathDb full proc stparse lsProc lsParse now =
        ⟨snap, pathDb, 1, none, .error (.tool e)⟩) := by
  have hsnap : ∃ e, ResticWrapper.snapshots proc sparse = .error e := by
    rcases hfail with h | h
    · exact ⟨.nonZeroExit proc.returncode,
        by rw [ResticWrapper.snapshots, ResticWrapper.call, if_neg h]⟩
    · by_cases hrc : proc.returncode = 0
      · refine ⟨.malformed, ?_⟩
        rw [ResticWrapper.snapshots, ResticWrapper.call, if_pos hrc]
        dsimp only
        rw [h.1]
      · exact ⟨.nonZeroExit proc.returncode,
          by rw [ResticWrapper.snapshots, ResticWrapper.call, if_neg hrc]⟩
  have hls : ∃ e, ResticWrapper.ls proc pparse = .error e := by
    rcases hfail with h | h
    · exact ⟨.nonZeroExit proc.returncode,
        by rw [ResticWrapper.ls, ResticWrapper.call, if_neg h]⟩
    · by_cases hrc : proc.returncode = 0
      · refine ⟨.malformed, ?_⟩
        rw [ResticWrapper.ls, ResticWrapper.call, if_pos hrc]
        dsimp only
        rw [h.2.1]
      · exact ⟨.nonZeroExit proc.returncode,
          by rw [ResticWrapper.ls, ResticWrapper.call, if_neg hrc]⟩
  have hstats : ∃ e, ResticWrapper.stats proc stparse = .error e := by
    rcases hfail with h | h
    · exact ⟨.nonZeroExit proc.returncode,
        by rw [ResticWrapper.stats, ResticWrapper.call, if_neg h]⟩
    · by_cases hrc : proc.returncode = 0
      · refine ⟨.malformed, ?_⟩
        rw [ResticWrapper.stats, ResticWrapper.call, if_pos hrc]
        dsimp only
        rw [h.2.2]
      · exact ⟨.nonZeroExit proc.returncode,
          by rw [ResticWrapper.stats, ResticWrapper.call, if_neg hrc]⟩
  obtain ⟨e1, he1⟩ := hsnap
  obtain ⟨e2, he2⟩ := hls
  obtain ⟨e3, he3⟩ := hstats
  refine ⟨⟨e1, he1⟩, ⟨e2, he2⟩, ⟨e3, he3⟩, ?_, ?_, ?_⟩
  · intro repo db now
    refine ⟨e1, ?_⟩
    rw [Repository.sync_snapshots, he1]
  · intro selfPk selfRec db now force hcond
    refine ⟨e2, ?_⟩
    rw [SnapshotPath.get_children, if_neg (by rw [hcond]; exact Bool.false_ne_true),
      he2]
  · intro snap pathDb full lsProc lsParse now hcond
    refine ⟨e3, ?_⟩
    rw [Snapshot.sync]
    dsimp only
    rw [if_pos hcond, Snapshot.sync_stats, he3]

theorem C7_tool_failures_surface_and_abort_witness :
    ((⟨1, "x"⟩ : ProcResult).returncode ≠ 0 ∨
      ((fun _ : String => (none : Option (List ResticSnap))) "x" = none ∧
       (fun _ : String => (none : Option (List ResticNode))) "x" = none ∧
       (fun _ : String => (none : Option StatsRec)) "x" = none)) ∧
    ((∃ e, ResticWrapper.snapshots ⟨1, "x"⟩ (fun _ => none) = .error e) ∧
     (∃ e, Repository.sync_snapshots 7 [] ⟨1, "x"⟩ (fun _ => none) 0 =
       ⟨[], .error (.tool e)⟩)) :=
  ⟨Or.inl (by decide),
   ⟨(C7_tool_failures_surface_and_abort ⟨1, "x"⟩ (fun _ => none)
       (fun _ => none) (fun _ => none) (Or.inl (by decide))).1,
    (C7_tool_failures_surface_and_abort ⟨1, "x"⟩ (fun _ => none)
       (fun _ => none) (fun _ => none) (Or.inl (by decide))).2.2.2.1 7 [] 0⟩⟩

/-- C8 counterexample: `get_or_create` is a read followed by a conditional
write, and `SnapshotPath` declares no uniqueness constraint on
(snapshot, path), so the concurrent interleaving read/read/write/write of
two `get_root` calls on a snapshot with no root row creates TWO root rows,
not exactly one. -/
theorem C8_counterexample_concurrent_get_root_duplicates :
    rootRowCount
      (get_or_create_step (get_or_create_read ([] : List (Nat × PathRec)) "s")
        (get_or_create_step
          (get_or_create_read ([] : List (Nat × PathRec)) "s")
          ([] : List (Nat × PathRec)) "s").2 "s").2 "s" = 2 ∧
    (2 : Nat) ≠ 1 := by
  decide

/-- C8 (amended).  Two sequential `get_root` calls on the same Snapshot
return the same root row and the second changes nothing; a first call on a
store with no root row stores exactly one (path "/", for this snapshot).
The get-or-create is however a read-then-write without a uniqueness
constraint, so a concurrent interleaving of two calls can create two root
rows (see the counterexample). -/
theorem C8_get_root_sequential_idempotent
    (db : List (Nat × PathRec)) (s : String) :
    (Snapshot.get_root (Snapshot.get_root db s).2 s).1 =
      (Snapshot.get_root db s).1 ∧
    (Snapshot.get_root (Snapshot.get_root db s).2 s).2 =
      (Snapshot.get_root db s).2 ∧
    rootRowCount (Snapshot.get_root db s).2 s =
      (if rootRowCount db s = 0 then 1 else rootRowCount db s) ∧
    (Snapshot.get_root db s).1.2.path = "/" ∧
    (Snapshot.get_root db s).1.2.snapshot = s := by
  cases hr : get_or_create_read db s with
  | some pr =>
    have hr' : db.find? (fun x => x.2.snapshot == s && x.2.path == "/") =
        some pr := hr
    have hfirst : Snapshot.get_root db s = (pr, db) := by
      rw [Snapshot.get_root, hr]
      rfl
    have hpred := List.find?_some hr'
    simp only [Bool.and_eq_true, beq_iff_eq] at hpred
    have hcount : rootRowCount db s ≠ 0 := by
      have hmem := List.mem_of_find?_eq_some hr'
      have hin : pr ∈ db.filter fun x =>
          x.2.snapshot == s && x.2.path == "/" :=
        List.mem_filter.mpr ⟨hmem, by simp [hpred.1, hpred.2]⟩
      intro hlen
      rw [rootRowCount, List.length_eq_zero] at hlen
      rw [hlen] at hin
      cases hin
    rw [hfirst]
    dsimp only
    rw [hfirst, if_neg hcount]
    exact ⟨rfl, rfl, rfl, hpred.2, hpred.1⟩
  | none =>
    have hr' : db.find? (fun x => x.2.snapshot == s && x.2.path == "/") =
        none := hr
    have hfirst : Snapshot.get_root db s =
        ((freshPk db, rootDefaults s),
         db ++ [(freshPk db, rootDefaults s)]) := by
      rw [Snapshot.get_root, hr]
      rfl
    have hcount0 : rootRowCount db s = 0 := by
      rw [rootRowCount, List.length_eq_zero, List.filter_eq_nil_iff]
      exact List.find?_eq_none.mp hr'
    have hread2 : get_or_create_read
        (db ++ [(freshPk db, rootDefaults s)]) s =
        some (freshPk db, rootDefaults s) := by
      rw [get_or_create_read, List.find?_append, hr']
      simp [rootDefaults, List.find?]
    have hsecond : Snapshot.get_root
        (db ++ [(freshPk db, rootDefaults s)]) s =
        ((freshPk db, rootDefaults s),
         db ++ [(freshPk db, rootDefaults s)]) := by
      rw [Snapshot.get_root, hread2]
      rfl
    rw [hfirst]
    dsimp only
    rw [hsecond, if_pos hcount0]
    refine ⟨rfl, rfl, ?_, rfl, rfl⟩
    rw [rootRowCount, List.filter_append, List.length_append]
    rw [rootRowCount, List.length_eq_zero] at hcount0
    rw [hcount0]
    simp [rootDefaults]

/-- C9.  `Snapshot.sync(full)` runs `sync_stats` exactly when `full` is true
or the cached stats were never fetched (`total_size` is null); when the
stats step is skipped or succeeds it then fetches the root path's children
with `force_sync = full`; when the stats step raises, the error propagates
before the path tree is touched. -/
theorem C9_sync_runs_stats_iff_and_forces_children
    (snap : SnapRec) (pathDb : List (Nat × PathRec)) (full : Bool)
    (statsProc : ProcResult) (statsParse : String → Option StatsRec)
    (lsProc : ProcResult) (lsParse : String → Option (List ResticNode))
    (now : Nat) :
    ((Snapshot.sync snap pathDb full statsProc statsParse lsProc lsParse
        now).statsCalls = if full || snap.total_size.isNone then 1 else 0) ∧
    ((full || snap.total_size.isNone) = false →
      Snapshot.sync snap pathDb full statsProc statsParse lsProc lsParse
          now =
        ⟨snap,
         (SnapshotPath.get_children (Snapshot.get_root pathDb snap.id).1.1
           (Snapshot.get_root pathDb snap.id).1.2
           (Snapshot.get_root pathDb snap.id).2 lsProc lsParse now full).db,
         0, some full,
         (SnapshotPath.get_children (Snapshot.get_root pathDb snap.id).1.1
           (Snapshot.get_root pathDb snap.id).1.2
           (Snapshot.get_root pathDb snap.id).2 lsProc lsParse now
           full).res⟩) ∧
    (∀ st, (full || snap.total_size.isNone) = true →
      ResticWrapper.stats statsProc statsParse = .ok st →
      Snapshot.sync snap pathDb full statsProc statsParse lsProc lsParse
          now =
        ⟨{ snap with
             total_size := some st.total_size,
             total_file_count := some st.total_file_count },
         (SnapshotPath.get_children (Snapshot.get_root pathDb snap.id).1.1
           (Snapshot.get_root pathDb snap.id).1.2
           (Snapshot.get_root pathDb snap.id).2 lsProc lsParse now full).db,
         1, some full,
         (SnapshotPath.get_children (Snapshot.get_root pathDb snap.id).1.1
           (Snapshot.get_root pathDb snap.id).1.2
           (Snapshot.get_root pathDb snap.id).2 lsProc lsParse now
           full).res⟩) ∧
    (∀ e, (full || snap.total_size.isNone) = true →
      ResticWrapper.stats statsProc statsParse = .error e →
      Snapshot.sync snap pathDb full statsProc statsParse lsProc lsParse
          now = ⟨snap, pathDb, 1, none, .error (.tool e)⟩) := by
  refine ⟨?_, ?_, ?_, ?_⟩
  · rw [Snapshot.sync]
    dsimp only
    by_cases hcond : (full || snap.total_size.isNone) = true
    · rw [if_pos hcond, if_pos hcond, Snapshot.sync_stats]
      cases hst : ResticWrapper.stats statsProc statsParse <;> rfl
    · rw [if_neg hcond, if_neg hcond]
  · intro hcond
    rw [Snapshot.sync]
    dsimp only
    rw [if_neg (by rw [hcond]; exact Bool.false_ne_true)]
  · intro st hcond hst
    rw [Snapshot.sync]
    dsimp only
    rw [if_pos hcond, Snapshot.sync_stats, hst]
  · intro e hcond hst
    rw [Snapshot.sync]
    dsimp only
    rw [if_pos hcond, Snapshot.sync_stats, hst]

theorem C9_sync_runs_stats_iff_and_forces_children_witness :
    (((true : Bool) || (mkSnap "x" 1 "h" [] none none).total_size.isNone) =
      true ∧
     ResticWrapper.stats ⟨1, ""⟩ (fun _ => none) =
      .error (.nonZeroExit 1)) ∧
    Snapshot.sync (mkSnap "x" 1 "h" [] none none) [] true ⟨1, ""⟩
        (fun _ => none) ⟨1, ""⟩ (fun _ => none) 3 =
      ⟨mkSnap "x" 1 "h" [] none none, [], 1, none,
        .error (.tool (.nonZeroExit 1))⟩ :=
  ⟨⟨by decide, by decide⟩,
   (C9_sync_runs_stats_iff_and_forces_children
     (mkSnap "x" 1 "h" [] none none) [] true ⟨1, ""⟩ (fun _ => none) ⟨1, ""⟩
     (fun _ => none) 3).2.2.2 (.nonZeroExit 1) (by decide) (by decide)⟩

end Backupman

